import Mathlib

set_option maxHeartbeats 1000000

/-!
Verification of the go-erlpack decoder (package erlpack).

The Go sources are embedded shallowly:

* `Reader` models `*bytes.Reader`: a byte list plus a cursor.  `readByte`
  models `Reader.ReadByte` (error exactly when the cursor is at or past the
  end).  `readFull` models `Reader.Read(b)` on a freshly allocated
  zero-initialised buffer of length `n`: it errors only when the cursor is
  at or past the end, and otherwise copies `min n remaining` bytes, leaving
  the tail of the buffer zero — Go's `bytes.Reader.Read` never reports a
  partial read.
* `Item` models the dynamic `interface{}` values the decoder produces.
* `processAtom`, `processItem` (split here into `decodeItem` plus the
  per-destination dispatch `processItemD`), `processRawData`,
  `handleItemCasting`, `pointerSetter.set`, `pointerSetter.getBasePtr` and
  `Unpack` are translated from the source files.
* Go struct field names, tags and decoded strings are byte lists.
* Machine integers are `Nat`/`Int` with explicit wrapping where the source
  can overflow (the `'n'` accumulator).
-/

/-- Byte-list model of a Go byte slice; entries are expected to be < 256. -/
abbrev Bytes := List Nat

/-- Model of `*bytes.Reader`: the underlying bytes `s` and the cursor `i`. -/
structure Reader where
  s : Bytes
  i : Nat
deriving Repr, DecidableEq

/-- `Reader.Len()`: the number of unread bytes. -/
def Reader.lenR (r : Reader) : Nat := r.s.length - r.i

/-- `bytes.Reader.ReadByte`: fails iff the cursor is at or past the end. -/
def readByte (r : Reader) : Except String (Nat × Reader) :=
  match r.s[r.i]? with
  | some b => Except.ok (b, ⟨r.s, r.i + 1⟩)
  | none => Except.error "EOF"

/-- `bytes.Reader.Read` into a fresh zero-initialised buffer of length `n`:
errors only when the cursor is at or past the end; otherwise copies up to
`n` bytes and leaves the rest of the buffer zero (Go reports no error for a
partial read). -/
def readFull (n : Nat) (r : Reader) : Except String (Bytes × Reader) :=
  if r.i < r.s.length then
    let taken := (r.s.drop r.i).take n
    Except.ok (taken ++ List.replicate (n - taken.length) 0, ⟨r.s, r.i + taken.length⟩)
  else Except.error "EOF"

/-- A `for` loop calling `ReadByte` exactly `n` times (used by the atom,
int64 magnitude, raw-string and raw-float loops): fails as soon as one
`ReadByte` fails. -/
def readBytesN : Nat → Reader → Except String (Bytes × Reader)
| 0, r => Except.ok ([], r)
| Nat.succ n, r => do
  let (b, r₁) ← readByte r
  let (rest, r₂) ← readBytesN n r₁
  Except.ok (b :: rest, r₂)

/-- `binary.BigEndian.Uint32` on a 4-byte buffer. -/
def be32 (b : Bytes) : Nat :=
  match b with
  | [a, b, c, d] => a * 16777216 + b * 65536 + c * 256 + d
  | _ => 0

/-- `binary.BigEndian.Uint64` on an 8-byte buffer. -/
def be64 (b : Bytes) : Nat :=
  match b with
  | [a, b, c, d, e, f, g, h] =>
    a * 72057594037927936 + b * 281474976710656 + c * 1099511627776 +
      d * 4294967296 + e * 16777216 + f * 65536 + g * 256 + h
  | _ => 0

/-- Reinterpret a `uint32` bit pattern as a Go `int32`
(`*(*int32)(unsafe.Pointer(&l))`). -/
def toInt32 (u : Nat) : Int :=
  if u < 2147483648 then (u : Int) else (u : Int) - 4294967296

/-- Reinterpret a `uint64` bit pattern as a Go `int64` (`int64(u)`). -/
def toInt64 (u : Nat) : Int :=
  if u < 9223372036854775808 then (u : Int) else (u : Int) - 18446744073709551616

/-- Go `int64(u) * -1`: two's-complement negation of the 64-bit pattern. -/
def negInt64 (u : Nat) : Int :=
  toInt64 ((18446744073709551616 - u % 18446744073709551616) % 18446744073709551616)

/-- The dynamic values (`interface{}`) produced by the decoder: `atom`
models `Atom` (a named string type), `str` a Go `string` (map keys),
`bytes` a `[]byte`, `float` carries the IEEE-754 bit pattern the source
obtains by bit reinterpretation, `vnil` the untyped `nil` produced for the
atom `nil`, and `map` the `map[interface{}]interface{}` as an
insertion-ordered association list. -/
inductive Item where
| atom (name : Bytes)
| int64 (n : Int)
| int32 (n : Int)
| uint8 (n : Nat)
| float (bits : Nat)
| str (s : Bytes)
| bytes (b : Bytes)
| bool (b : Bool)
| vnil
| list (xs : List Item)
| map (pairs : List (Item × Item))
deriving Repr

mutual

/-- Key comparison for the map-insert model `assocSet` (Go `==` on the
`interface{}` values `m[Key] = Value` compares).  On bool, atom, integer,
string and stringified-binary keys this agrees with Go.  Go diverges on
the remaining shapes: a slice or map key makes `m[Key] = Value` panic with
"hash of unhashable type" (modelled structurally here, with no panic), and
Go compares float keys by IEEE `==` (`+0.0 == -0.0`, `NaN != NaN`) rather
than by the bit pattern stored in `Item.float`.  `WFTerm` below therefore
keeps map keys away from the `'j'`/`'l'`/`'t'`/`'F'` tags, so the
quantified theorems never reach these divergent cases. -/
def itemEq : Item → Item → Bool
| Item.atom a, Item.atom b => a = b
| Item.int64 a, Item.int64 b => a = b
| Item.int32 a, Item.int32 b => a = b
| Item.uint8 a, Item.uint8 b => a = b
| Item.float a, Item.float b => a = b
| Item.str a, Item.str b => a = b
| Item.bytes a, Item.bytes b => a = b
| Item.bool a, Item.bool b => a = b
| Item.vnil, Item.vnil => true
| Item.list a, Item.list b => itemListEq a b
| Item.map a, Item.map b => itemPairsEq a b
| _, _ => false

def itemListEq : List Item → List Item → Bool
| [], [] => true
| a :: as, b :: bs => itemEq a b && itemListEq as bs
| _, _ => false

def itemPairsEq : List (Item × Item) → List (Item × Item) → Bool
| [], [] => true
| (k, v) :: as, (k', v') :: bs => itemEq k k' && itemEq v v' && itemPairsEq as bs
| _, _ => false

end

/-- Go map assignment `m[k] = v` on the association-list model: replaces
the entry whose key compares equal, else appends.  Faithful only for
hashable keys: on a slice or map key the Go statement panics instead of
inserting (see `itemEq`), which is why `WFTerm` restricts key tags. -/
def assocSet (l : List (Item × Item)) (k : Item) (v : Item) : List (Item × Item) :=
  match l with
  | [] => [(k, v)]
  | (k', v') :: rest =>
    if itemEq k' k then (k, v) :: rest else (k', v') :: assocSet rest k v

/-- `processAtom` from the source: reserves `true`/`false`/`nil` via
`matchRest`, which checks that the remaining expected bytes are a prefix of
`Data[1:]` (it never rejects longer atom names).  Returns `none` when
`Data` is empty, where the Go code panics indexing `Data[0]`. -/
def processAtom (Data : Bytes) : Option Item :=
  let matchRest : Bytes → Bool := fun d =>
    if d.length > Data.length - 1 then false
    else decide ((Data.drop 1).take d.length = d)
  match Data with
  | [] => none
  | c :: _ =>
    if c = 116 then
      if matchRest [114, 117, 101] then some (Item.bool true) else some (Item.atom Data)
    else if c = 102 then
      if matchRest [97, 108, 115, 101] then some (Item.bool false) else some (Item.atom Data)
    else if c = 110 then
      if matchRest [105, 108] then some Item.vnil else some (Item.atom Data)
    else some (Item.atom Data)

/-- The int64 magnitude loop of `processItem`'s `'n'` branch: `u` and `x`
are the 64-bit accumulator and multiplier; the source initialises `x` to 0
and only ever shifts it, so it never leaves 0. -/
def readIntLoop : Nat → Nat → Nat → Reader → Except String (Nat × Reader)
| 0, u, _, r => Except.ok (u, r)
| Nat.succ c, u, x, r => do
  let (b, r₁) ← readByte r
  readIntLoop c ((u + b * x) % 18446744073709551616) ((x * 256) % 18446744073709551616) r₁

/-- Convert a decoded map key: `[]byte` keys are stored as `string`
(`case []byte: Key = string(x)` in the `'t'` branch). -/
def stringifyKey (k : Item) : Item :=
  match k with
  | Item.bytes b => Item.str b
  | k => k

mutual

/-- The materialising part of `processItem`: reads the tag byte and decodes
one term.  The recursive child decodes in the `'l'` and `'t'` branches go
through `processItem` with a fresh `*interface{}` setter in the source,
which never takes the raw path and stores the decoded item unchanged
(`processItemD_interface` below proves this factoring exact).  `fuel`
bounds the recursion depth and is a modelling artifact: every theorem
supplies enough of it. -/
def decodeItem : Nat → Reader → Except String (Item × Reader)
| 0, _ => Except.error "recursion limit"
| Nat.succ fuel, r => do
  let (DataType, r₁) ← (readByte r).mapError
    (fun _ => "not long enough to include data type")
  if DataType = 115 then do
    -- atom; the source discards the length byte read error, which cannot
    -- occur after the Len() check
    if r₁.lenR = 0 then Except.error "atom information missing"
    else do
      let (b, r₂) ← readByte r₁
      let (Data, r₃) ← (readBytesN b r₂).mapError
        (fun _ => "atom size larger than remainder of array")
      match processAtom Data with
      | some it => Except.ok (it, r₃)
      | none => Except.error "panic: index out of range in processAtom"
  else if DataType = 106 then
    -- blank list
    Except.ok (Item.list [], r₁)
  else if DataType = 108 then do
    -- list
    let (lengthBytes, r₂) ← (readFull 4 r₁).mapError
      (fun _ => "not enough bytes for list length")
    let (xs, r₃) ← decodeItems fuel (be32 lengthBytes) r₂
    Except.ok (Item.list xs, r₃)
  else if DataType = 109 then do
    -- string (binary)
    let (lengthBytes, r₂) ← (readFull 4 r₁).mapError
      (fun _ => "not enough bytes for list length")
    let (Data, r₃) ← (readFull (be32 lengthBytes) r₂).mapError
      (fun _ => "string length is longer than remainder of array")
    Except.ok (Item.bytes Data, r₃)
  else if DataType = 97 then do
    -- small int
    let (i, r₂) ← (readByte r₁).mapError (fun _ => "failed to read small int")
    Except.ok (Item.uint8 i, r₂)
  else if DataType = 98 then do
    -- int32
    let (b, r₂) ← (readFull 4 r₁).mapError (fun _ => "not enough bytes for int32")
    Except.ok (Item.int32 (toInt32 (be32 b)), r₂)
  else if DataType = 110 then do
    -- int64
    let (encodedBytes, r₂) ← (readByte r₁).mapError
      (fun _ => "unable to read int64 byte count")
    let (signatureChar, r₃) ← (readByte r₂).mapError
      (fun _ => "unable to read int64 signature")
    let (u, r₄) ← (readIntLoop encodedBytes 0 0 r₃).mapError
      (fun _ => "int64 length greater than array")
    if signatureChar = 1 then Except.ok (Item.int64 (negInt64 u), r₄)
    else Except.ok (Item.int64 (toInt64 u), r₄)
  else if DataType = 70 then do
    -- float
    let (encodedBytes, r₂) ← (readFull 8 r₁).mapError
      (fun _ => "not enough bytes to decode")
    Except.ok (Item.float (be64 encodedBytes), r₂)
  else if DataType = 116 then do
    -- map
    let (b, r₂) ← (readFull 4 r₁).mapError (fun _ => "not enough bytes for int32")
    let (m, r₃) ← decodeMapPairs fuel (be32 b) [] r₂
    Except.ok (Item.map m, r₃)
  else Except.error "unknown data type"

/-- The element loop of the `'l'` branch: `l` iterations of
`processItem` into a fresh `*interface{}`. -/
def decodeItems : Nat → Nat → Reader → Except String (List Item × Reader)
| 0, _, _ => Except.error "recursion limit"
| Nat.succ _, 0, r => Except.ok ([], r)
| Nat.succ fuel, Nat.succ n, r => do
  let (x, r₁) ← decodeItem fuel r
  let (rest, r₂) ← decodeItems fuel n r₁
  Except.ok (x :: rest, r₂)

/-- The pair loop of the `'t'` branch: decodes key then value, converts
`[]byte` keys to strings, and performs `m[Key] = Value`. -/
def decodeMapPairs : Nat → Nat → List (Item × Item) → Reader →
    Except String (List (Item × Item) × Reader)
| 0, _, _, _ => Except.error "recursion limit"
| Nat.succ _, 0, m, r => Except.ok (m, r)
| Nat.succ fuel, Nat.succ n, m, r => do
  let (key, r₁) ← decodeItem fuel r
  let key := stringifyKey key
  let (value, r₂) ← decodeItem fuel r₁
  decodeMapPairs fuel n (assocSet m key value) r₂

end

mutual

/-- `processRawData` from the source: re-assembles the exact bytes of one
term whose tag byte `DataType` was already consumed; the assembled span
always starts with the tag.  The `jsonType` flag only selects the Go result
type (`json.RawMessage` vs `RawData`) and is applied by the caller here. -/
def processRawData : Nat → Nat → Reader → Except String (Bytes × Reader)
| 0, _, _ => Except.error "recursion limit"
| Nat.succ fuel, DataType, r =>
  if DataType = 115 then
    -- atom
    if r.lenR = 0 then Except.error "atom information missing"
    else do
      let (b, r₁) ← readByte r
      let (body, r₂) ← (readBytesN b r₁).mapError
        (fun _ => "atom size larger than remainder of array")
      Except.ok (115 :: b :: body, r₂)
  else if DataType = 106 then
    -- blank list
    Except.ok ([106], r)
  else if DataType = 108 then do
    -- list
    let (lengthBytes, r₁) ← (readFull 4 r).mapError
      (fun _ => "not enough bytes for list length")
    let (body, r₂) ← rawItems fuel (be32 lengthBytes) r₁
    Except.ok (108 :: lengthBytes ++ body, r₂)
  else if DataType = 109 then do
    -- string (binary)
    let (lengthBytes, r₁) ← (readFull 4 r).mapError
      (fun _ => "not enough bytes for list length")
    let (body, r₂) ← (readBytesN (be32 lengthBytes) r₁).mapError
      (fun _ => "atom size larger than remainder of array")
    Except.ok (109 :: lengthBytes ++ body, r₂)
  else if DataType = 97 then do
    -- small int
    let (i, r₁) ← (readByte r).mapError (fun _ => "failed to read small int")
    Except.ok ([97, i], r₁)
  else if DataType = 98 then do
    -- int32
    let (b, r₁) ← (readFull 4 r).mapError (fun _ => "not enough bytes for int32")
    Except.ok (98 :: b, r₁)
  else if DataType = 110 then do
    -- int64: reads the 1-byte count, then exactly that many bytes;
    -- the source does not account for the sign byte here.
    let (encodedBytes, r₁) ← (readByte r).mapError
      (fun _ => "unable to read int64 byte count")
    let (body, r₂) ← (readBytesN encodedBytes r₁).mapError
      (fun _ => "int size larger than remainder of array")
    Except.ok (110 :: encodedBytes :: body, r₂)
  else if DataType = 70 then do
    -- float
    let (body, r₁) ← (readBytesN 8 r).mapError
      (fun _ => "float size larger than remainder of array")
    Except.ok (70 :: body, r₁)
  else if DataType = 116 then do
    -- map
    let (lengthBytes, r₁) ← (readFull 4 r).mapError
      (fun _ => "not enough bytes for list length")
    let (body, r₂) ← rawPairs fuel (be32 lengthBytes) r₁
    Except.ok (116 :: lengthBytes ++ body, r₂)
  else Except.error "unknown data type"

/-- The raw list loop: reads each child's tag byte and recurses. -/
def rawItems : Nat → Nat → Reader → Except String (Bytes × Reader)
| 0, _, _ => Except.error "recursion limit"
| Nat.succ _, 0, r => Except.ok ([], r)
| Nat.succ fuel, Nat.succ n, r => do
  let (DataType, r₁) ← (readByte r).mapError
    (fun _ => "not long enough to include data type")
  let (raw, r₂) ← processRawData fuel DataType r₁
  let (rest, r₃) ← rawItems fuel n r₂
  Except.ok (raw ++ rest, r₃)

/-- The raw map loop: key bytes then value bytes, appended in order. -/
def rawPairs : Nat → Nat → Reader → Except String (Bytes × Reader)
| 0, _, _ => Except.error "recursion limit"
| Nat.succ _, 0, r => Except.ok ([], r)
| Nat.succ fuel, Nat.succ n, r => do
  let (DataType, r₁) ← (readByte r).mapError
    (fun _ => "not long enough to include data type")
  let (rawK, r₂) ← processRawData fuel DataType r₁
  let (DataType₂, r₃) ← (readByte r₂).mapError
    (fun _ => "not long enough to include data type")
  let (rawV, r₄) ← processRawData fuel DataType₂ r₃
  let (rest, r₅) ← rawPairs fuel n r₄
  Except.ok (rawK ++ rawV ++ rest, r₅)

end

/-- The destination shapes (Go types reachable through the reflection
switches of `handleItemCasting`).  `tInterface` is `interface{}`,
`tUncasted` is `UncastedResult`, `tRawData`/`tJsonRaw` are `RawData` and
`json.RawMessage`, and a struct is its field list: (name, erlpack tag,
type) with tag `[]` for an untagged field and `[45]` (`"-"`) for an
excluded one.  Struct types carrying a custom `UncastedErlpack` hook are
outside this model (that branch returns the hook's own result). -/
inductive GoType where
| tInterface
| tUncasted
| tAtom
| tInt
| tInt64
| tInt32
| tUint
| tUint8
| tFloat64
| tString
| tBytes
| tBool
| tRawData
| tJsonRaw
| tPtr (e : GoType)
| tSlice (e : GoType)
| tMap (k v : GoType)
| tStruct (fields : List (Bytes × Bytes × GoType))
deriving Repr

/-- `reflect.Kind() == reflect.Ptr`. -/
def GoType.isPtr : GoType → Bool
| GoType.tPtr _ => true
| _ => false

/-- The innermost non-pointer type of a destination, as computed by
`pointerSetter.getBasePtr` on a `*D` argument (whose typed-nil result
`*Leaf` drives every type switch in the source). -/
def leafType : GoType → GoType
| GoType.tPtr e => leafType e
| t => t

/-- A Go value stored in a destination variable.  `vPtr none` is a nil
pointer; `vStruct` is the field-name-to-value record; `vMap` an
insertion-ordered association list. -/
inductive GoValue where
| vInterface (it : Item)
| vUncasted (it : Item)
| vAtom (s : Bytes)
| vInt (n : Int)
| vInt64 (n : Int)
| vInt32 (n : Int)
| vUint (n : Nat)
| vUint8 (n : Nat)
| vFloat64 (bits : Nat)
| vString (s : Bytes)
| vBytes (b : Bytes)
| vBool (b : Bool)
| vRawData (b : Bytes)
| vJsonRaw (b : Bytes)
| vPtr (p : Option GoValue)
| vSlice (xs : List GoValue)
| vMap (entries : List (GoValue × GoValue))
| vStruct (fields : List (Bytes × GoValue))
deriving Repr

mutual

/-- Go `==`/map-key identity on reflect values, used by `SetMapIndex`
(keys that are slices, maps or structs with such fields would panic in Go;
modelled structurally, unused by the decoder's reachable key types). -/
def goValEq : GoValue → GoValue → Bool
| GoValue.vInterface a, GoValue.vInterface b => itemEq a b
| GoValue.vUncasted a, GoValue.vUncasted b => itemEq a b
| GoValue.vAtom a, GoValue.vAtom b => a = b
| GoValue.vInt a, GoValue.vInt b => a = b
| GoValue.vInt64 a, GoValue.vInt64 b => a = b
| GoValue.vInt32 a, GoValue.vInt32 b => a = b
| GoValue.vUint a, GoValue.vUint b => a = b
| GoValue.vUint8 a, GoValue.vUint8 b => a = b
| GoValue.vFloat64 a, GoValue.vFloat64 b => a = b
| GoValue.vString a, GoValue.vString b => a = b
| GoValue.vBytes a, GoValue.vBytes b => a = b
| GoValue.vBool a, GoValue.vBool b => a = b
| GoValue.vRawData a, GoValue.vRawData b => a = b
| GoValue.vJsonRaw a, GoValue.vJsonRaw b => a = b
| GoValue.vPtr a, GoValue.vPtr b => goValOptEq a b
| GoValue.vSlice a, GoValue.vSlice b => goValListEq a b
| GoValue.vMap a, GoValue.vMap b => goValPairsEq a b
| GoValue.vStruct a, GoValue.vStruct b => goValFieldsEq a b
| _, _ => false

def goValOptEq : Option GoValue → Option GoValue → Bool
| none, none => true
| some a, some b => goValEq a b
| _, _ => false

def goValListEq : List GoValue → List GoValue → Bool
| [], [] => true
| a :: as, b :: bs => goValEq a b && goValListEq as bs
| _, _ => false

def goValPairsEq : List (GoValue × GoValue) → List (GoValue × GoValue) → Bool
| [], [] => true
| (k, v) :: as, (k', v') :: bs => goValEq k k' && goValEq v v' && goValPairsEq as bs
| _, _ => false

def goValFieldsEq : List (Bytes × GoValue) → List (Bytes × GoValue) → Bool
| [], [] => true
| (k, v) :: as, (k', v') :: bs => (k = k' : Bool) && goValEq v v' && goValFieldsEq as bs
| _, _ => false

end

/-- `reflect.Value.SetMapIndex` on the association-list model of a Go map:
replaces the entry whose key compares equal, else appends. -/
def assocSetV (l : List (GoValue × GoValue)) (k : GoValue) (v : GoValue) :
    List (GoValue × GoValue) :=
  match l with
  | [] => [(k, v)]
  | (k', v') :: rest =>
    if goValEq k' k then (k, v) :: rest else (k', v') :: assocSetV rest k v

mutual

/-- `reflect.Zero`/`reflect.New` initial value of a Go type (nil maps,
slices and pointers are the empty/none values of the model). -/
def zeroOf : GoType → GoValue
| GoType.tInterface => GoValue.vInterface Item.vnil
| GoType.tUncasted => GoValue.vUncasted Item.vnil
| GoType.tAtom => GoValue.vAtom []
| GoType.tInt => GoValue.vInt 0
| GoType.tInt64 => GoValue.vInt64 0
| GoType.tInt32 => GoValue.vInt32 0
| GoType.tUint => GoValue.vUint 0
| GoType.tUint8 => GoValue.vUint8 0
| GoType.tFloat64 => GoValue.vFloat64 0
| GoType.tString => GoValue.vString []
| GoType.tBytes => GoValue.vBytes []
| GoType.tRawData => GoValue.vRawData []
| GoType.tJsonRaw => GoValue.vJsonRaw []
| GoType.tBool => GoValue.vBool false
| GoType.tPtr _ => GoValue.vPtr none
| GoType.tSlice _ => GoValue.vSlice []
| GoType.tMap _ _ => GoValue.vMap []
| GoType.tStruct fields => GoValue.vStruct (zeroFields fields)

def zeroFields : List (Bytes × Bytes × GoType) → List (Bytes × GoValue)
| [] => []
| f :: rest => (f.1, zeroOf f.2.2) :: zeroFields rest

end

/-- `pointerSetter.set` from `pointer_setter.go` (named `setGo` here to avoid clashing with the state-monad `set`), expressed on the type `D`
of the destination variable (the setter holds a `*D`).  The loop walks
`D`'s pointer layers allocating a fresh cell at each one
(`x.Elem().Set(reflect.New(...))`), so a non-nil assignment wraps the leaf
value in one `vPtr some` per layer; a nil assignment
(`ptr.IsNil()`) requires at least one layer (else the source returns the
"cannot nil a value pointer" error) and leaves the innermost allocated
cell zeroed, producing the chain of fresh links ending in `vPtr none`. -/
def setGo : GoType → Option GoValue → Except String GoValue
| GoType.tPtr e, p =>
  if e.isPtr then (setGo e p).map (fun v => GoValue.vPtr (some v))
  else
    match p with
    | some v => Except.ok (GoValue.vPtr (some v))
    | none => Except.ok (GoValue.vPtr none)
| _, some v => Except.ok v
| _, none => Except.error "cannot nil a value pointer, this should be a pointer to a pointer"

/-- Association-list overwrite used to build the `tag2field` Go map. -/
def assocSetB (l : List (Bytes × Bytes)) (k : Bytes) (v : Bytes) : List (Bytes × Bytes) :=
  match l with
  | [] => [(k, v)]
  | (k', v') :: rest =>
    if k' = k then (k, v) :: rest else (k', v') :: assocSetB rest k v

/-- Go map lookup on the association-list model. -/
def lookupB : List (Bytes × Bytes) → Bytes → Option Bytes
| [], _ => none
| (k, v) :: rest, key => if k = key then some v else lookupB rest key

/-- The tag-to-field Go map of the struct branch: for each field, skip a
`"-"` tag, map an empty tag from the field's own name, otherwise from the
tag. -/
def tag2field (fields : List (Bytes × Bytes × GoType)) : List (Bytes × Bytes) :=
  fields.foldl
    (fun m f =>
      if f.2.1 = [45] then m
      else if f.2.1 = [] then assocSetB m f.1 f.1
      else assocSetB m f.2.1 f.1)
    []

/-- `structs.Struct.FieldOk`: find a struct field by name. -/
def findField (fields : List (Bytes × Bytes × GoType)) (name : Bytes) :
    Option (Bytes × Bytes × GoType) :=
  fields.find? (fun f => f.1 = name)

/-- `structs.Field.Set` on the record model: update the named field
(fields are assumed exported, where the library call cannot fail). -/
def setField (l : List (Bytes × GoValue)) (name : Bytes) (v : GoValue) :
    List (Bytes × GoValue) :=
  l.map (fun p => if p.1 = name then (p.1, v) else p)

mutual

/-- `handleItemCasting` from the source: casts one decoded item into a
destination variable of type `D` (the source's setter holds a `*D`).  The
first type switch stores any item into `interface{}`/`UncastedResult`
leaves; the second dispatches on the item.  Inner switches without a
matching case fall through to the final "unable to unpack" error; branches
where the Go code would panic (slice construction over a non-slice
destination) are modelled as errors and noted.  The source iterates Go
maps in unspecified order; the model iterates the decoded association
list in insertion order, and the map/struct claims are stated under
distinct keys, where the outcome does not depend on that order. -/
def handleItemCasting : Item → GoType → Except String GoValue
| item, D =>
  match leafType D, item with
  | GoType.tInterface, item => setGo D (some (GoValue.vInterface item))
  | GoType.tUncasted, item => setGo D (some (GoValue.vUncasted item))
  | base, Item.atom s =>
    match base with
    | GoType.tAtom => setGo D (some (GoValue.vAtom s))
    | _ => Except.error "unable to unpack to pointer specified"
  | base, Item.int64 x =>
    match base with
    | GoType.tInt => setGo D (some (GoValue.vInt x))
    | GoType.tInt64 => setGo D (some (GoValue.vInt64 x))
    | _ => Except.error "could not de-serialize into int"
  | base, Item.int32 x =>
    match base with
    | GoType.tInt => setGo D (some (GoValue.vInt x))
    | GoType.tInt32 => setGo D (some (GoValue.vInt32 x))
    | _ => Except.error "could not de-serialize into int"
  | base, Item.float x =>
    match base with
    | GoType.tFloat64 => setGo D (some (GoValue.vFloat64 x))
    | _ => Except.error "could not de-serialize into float64"
  | base, Item.uint8 x =>
    match base with
    | GoType.tUint => setGo D (some (GoValue.vUint x))
    | GoType.tUint8 => setGo D (some (GoValue.vUint8 x))
    | GoType.tInt => setGo D (some (GoValue.vInt x))
    | _ => Except.error "could not de-serialize into uint8"
  | base, Item.str x =>
    match base with
    | GoType.tString => setGo D (some (GoValue.vString x))
    | _ => Except.error "could not de-serialize into string"
  | base, Item.bytes x =>
    match base with
    | GoType.tString => setGo D (some (GoValue.vString x))
    | GoType.tBytes => setGo D (some (GoValue.vBytes x))
    | _ => Except.error "could not de-serialize into string"
  | base, Item.bool x =>
    match base with
    | GoType.tAtom =>
      if x then setGo D (some (GoValue.vAtom [116, 114, 117, 101]))
      else setGo D (some (GoValue.vAtom [102, 97, 108, 115, 101]))
    | GoType.tBool => setGo D (some (GoValue.vBool x))
    | _ => Except.error "unable to unpack to pointer specified"
  | base, Item.vnil =>
    match base with
    | GoType.tAtom => setGo D (some (GoValue.vAtom [110, 105, 108]))
    | _ => setGo D none
  | base, Item.list xs =>
    match base with
    | GoType.tSlice GoType.tInterface =>
      setGo D (some (GoValue.vSlice (xs.map GoValue.vInterface)))
    | GoType.tSlice e => do
      let vals ← castSliceElems xs e
      setGo D (some (GoValue.vSlice vals))
    | _ => Except.error "panic: reflect.MakeSlice of non-slice type"
  | base, Item.map ps =>
    match base with
    | GoType.tMap GoType.tInterface GoType.tInterface =>
      setGo D (some (GoValue.vMap (ps.map (fun kv =>
        (GoValue.vInterface kv.1, GoValue.vInterface kv.2)))))
    | GoType.tStruct fields => do
      let L ← castStructPairs ps fields (zeroFields fields)
      setGo D (some (GoValue.vStruct L))
    | GoType.tMap k v => do
      let entries ← castMapPairsGo ps k v []
      setGo D (some (GoValue.vMap entries))
    | _ => Except.error "unable to unpack to pointer specified"

/-- The slice element loop: each element is cast into a freshly allocated
variable of the element type and collected in order. -/
def castSliceElems : List Item → GoType → Except String (List GoValue)
| [], _ => Except.ok []
| x :: xs, e => do
  let v ← handleItemCasting x e
  let rest ← castSliceElems xs e
  Except.ok (v :: rest)

/-- The concrete-map destination loop: casts key and value into the map's
key/value types and inserts (the source's `!pptr.IsNil()` guard is always
true, `pptr` being freshly allocated). -/
def castMapPairsGo : List (Item × Item) → GoType → GoType →
    List (GoValue × GoValue) → Except String (List (GoValue × GoValue))
| [], _, _, acc => Except.ok acc
| (k, v) :: rest, kT, vT, acc => do
  let rk ← handleItemCasting k kT
  let rv ← handleItemCasting v vT
  castMapPairsGo rest kT vT (assocSetV acc rk rv)

/-- The struct branch loop over the decoded map's entries: a text key is
looked up in `tag2field` (unknown keys skipped), the value is cast into
the field's type and stored; any non-text key aborts with
"key must be string". -/
def castStructPairs : List (Item × Item) → List (Bytes × Bytes × GoType) →
    List (Bytes × GoValue) → Except String (List (Bytes × GoValue))
| [], _, acc => Except.ok acc
| (k, v) :: rest, fields, acc =>
  match k with
  | Item.str s =>
    match lookupB (tag2field fields) s with
    | none => castStructPairs rest fields acc
    | some fieldName =>
      match findField fields fieldName with
      | none => Except.error "failed to get field"
      | some f => do
        let r ← handleItemCasting v f.2.2
        castStructPairs rest fields (setField acc fieldName r)
  | _ => Except.error "key must be string"

end

/-- `processItem` from the source: reads the tag byte, takes the raw path
when the destination's base type is `json.RawMessage` or `RawData`, and
otherwise materialises the term and casts it.  The materialise branch is
expressed by re-entering `decodeItem` on the original reader (which begins
with the identical `ReadByte`); `processItemD_interface` below checks the
factoring on `interface{}` destinations used for all recursive child
decodes. -/
def processItemD : Nat → GoType → Reader → Except String (GoValue × Reader)
| 0, _, _ => Except.error "recursion limit"
| Nat.succ fuel, D, r => do
  let (DataType, r₁) ← (readByte r).mapError
    (fun _ => "not long enough to include data type")
  match leafType D with
  | GoType.tJsonRaw => do
    let (bs, r₂) ← processRawData fuel DataType r₁
    let v ← setGo D (some (GoValue.vJsonRaw bs))
    Except.ok (v, r₂)
  | GoType.tRawData => do
    let (bs, r₂) ← processRawData fuel DataType r₁
    let v ← setGo D (some (GoValue.vRawData bs))
    Except.ok (v, r₂)
  | _ => do
    let (item, r₂) ← decodeItem (Nat.succ fuel) r
    let v ← handleItemCasting item D
    Except.ok (v, r₂)

/-- `Unpack` from the source on a destination `*D` (the pointer-kind check
on the argument holds by construction here): requires at least two bytes,
checks the version byte 131, and hands the rest to `processItem`.  The
fuel `5 * Data.length + 5` is a modelling artifact bounding recursion
depth; it is shown sufficient wherever needed. -/
def Unpack (Data : Bytes) (D : GoType) : Except String GoValue :=
  if Data.length < 2 then Except.error "invalid erlpack bytes"
  else
    match readByte ⟨Data, 0⟩ with
    | Except.error _ => Except.error "invalid erlpack bytes"
    | Except.ok (Version, r) =>
      if Version = 131 then (processItemD (5 * Data.length + 5) D r).map (fun p => p.1)
      else Except.error "invalid erlpack bytes"

/-- `Except.isOk` helper for stating failure. -/
def isOkE {α : Type} (e : Except String α) : Bool :=
  match e with
  | Except.ok _ => true
  | Except.error _ => false

/-- `pointerSetter.getBasePtr`'s type walk (shared shape of both source
versions): starting from the setter's pointer type, step inside while the
kind is pointer and return the first non-pointer type; a non-pointer
argument panics in Go, modelled as `none`. -/
def basePtrWalk : GoType → Option GoType
| GoType.tPtr e => if e.isPtr then basePtrWalk e else some e
| _ => none

/-- The `pointerSetter` of `pointer_setter.go`: pointer type plus the
`baseCache` memo field; `ptrTy` is the type of the wrapped pointer. -/
structure pointerSetterC where
  ptrTy : GoType
  baseCache : Option GoType

/-- `getBasePtr` from `pointer_setter.go`: returns the cached result when
present, else walks the type, stores the result in `baseCache` and returns
it (the panic case leaves the cache untouched). -/
def getBasePtrC (s : pointerSetterC) : Option GoType × pointerSetterC :=
  match s.baseCache with
  | some r => (some r, s)
  | none =>
    match basePtrWalk s.ptrTy with
    | some res => (some res, ⟨s.ptrTy, some res⟩)
    | none => (none, s)

/-- The cache-free `getBasePtr` of the second `pointerSetter`
implementation (`src/unnamed/part_001`): the same type walk, recomputed on
every call. -/
def getBasePtrU : GoType → Option GoType
| GoType.tPtr e => if e.isPtr then getBasePtrU e else some e
| _ => none

/-- `pointerSetter.set` of the second implementation
(`src/unnamed/part_001`); its body is byte-for-byte the body of `setGo`. -/
def setU : GoType → Option GoValue → Except String GoValue
| GoType.tPtr e, p =>
  if e.isPtr then (setU e p).map (fun v => GoValue.vPtr (some v))
  else
    match p with
    | some v => Except.ok (GoValue.vPtr (some v))
    | none => Except.ok (GoValue.vPtr none)
| _, some v => Except.ok v
| _, none => Except.error "cannot nil a value pointer, this should be a pointer to a pointer"

/-- `k` nested pointer layers over a leaf type. -/
def iterPtr : Nat → GoType → GoType
| 0, t => t
| Nat.succ k, t => GoType.tPtr (iterPtr k t)

/-- The value a `k+1`-deep pointer destination holds after a nil
assignment: `k` freshly allocated links ending in a nil pointer. -/
def nilChain : Nat → GoValue
| 0 => GoValue.vPtr none
| Nat.succ k => GoValue.vPtr (some (nilChain k))

/-- Big-endian 4-byte encoding of a `uint32`. -/
def be4 (n : Nat) : Bytes :=
  [n / 16777216 % 256, n / 65536 % 256, n / 256 % 256, n % 256]

/-- A term chunk that may serve as a map key without leaving the region
where the map-insert model is faithful to Go: its tag is not `'j'` (106),
`'l'` (108) or `'t'` (116), whose decoded values are slices or maps on
which `m[Key] = Value` panics with "hash of unhashable type", and not
`'F'` (70), whose float keys Go compares by IEEE `==` rather than by bit
pattern. -/
def hashableKeyChunk (c : Bytes) : Prop :=
  match c with
  | [] => False
  | t :: _ => t ≠ 106 ∧ t ≠ 108 ∧ t ≠ 116 ∧ t ≠ 70

/-- One complete well-formed wire term of the grammar the decoder
implements (§4.2 of the spec): atoms (nonempty, since the decoder indexes
the first name byte), the empty list, length-prefixed lists, binaries and
maps, 1-byte small integers, 4-byte int32s, length/sign/magnitude int64s
and 8-byte floats.  Map keys are restricted to hashable tags
(`hashableKeyChunk`): on slice or map keys the Go program panics at the
map insert instead of returning, and on float keys Go's `==` diverges
from the bit-pattern comparison of the model. -/
inductive WFTerm : Bytes → Prop
| atom (name : Bytes) : 1 ≤ name.length → name.length < 256 →
    (∀ b ∈ name, b < 256) → WFTerm (115 :: name.length :: name)
| emptyList : WFTerm [106]
| list (children : List Bytes) : children.length < 4294967296 →
    (∀ c ∈ children, WFTerm c) →
    WFTerm (108 :: be4 children.length ++ children.flatten)
| binary (b : Bytes) : b.length < 4294967296 → (∀ x ∈ b, x < 256) →
    WFTerm (109 :: be4 b.length ++ b)
| small (n : Nat) : n < 256 → WFTerm [97, n]
| int32 (b : Bytes) : b.length = 4 → (∀ x ∈ b, x < 256) → WFTerm (98 :: b)
| int64 (sign : Nat) (mag : Bytes) : sign < 256 → mag.length < 256 →
    (∀ x ∈ mag, x < 256) → WFTerm (110 :: mag.length :: sign :: mag)
| float (b : Bytes) : b.length = 8 → (∀ x ∈ b, x < 256) → WFTerm (70 :: b)
| mapT (pairs : List (Bytes × Bytes)) : pairs.length < 4294967296 →
    (∀ kv ∈ pairs, WFTerm kv.1) → (∀ kv ∈ pairs, hashableKeyChunk kv.1) →
    (∀ kv ∈ pairs, WFTerm kv.2) →
    WFTerm (116 :: be4 pairs.length ++ (pairs.map (fun kv => kv.1 ++ kv.2)).flatten)



/-- Lookup of a struct field's current value by name in the record model. -/
def lookupF : List (Bytes × GoValue) → Bytes → Option GoValue
| [], _ => none
| (k, v) :: rest, key => if k = key then some v else lookupF rest key

/-- The effective wire key of a struct field: `none` for a `"-"` tag
(excluded), the field's own name for an empty tag, otherwise the tag. -/
def effTag (f : Bytes × Bytes × GoType) : Option Bytes :=
  if f.2.1 = [45] then none else if f.2.1 = [] then some f.1 else some f.2.1

/-- The loop body of `tag2field` in terms of `effTag`. -/
def tagStep (m : List (Bytes × Bytes)) (f : Bytes × Bytes × GoType) : List (Bytes × Bytes) :=
  if f.2.1 = [45] then m
  else if f.2.1 = [] then assocSetB m f.1 f.1
  else assocSetB m f.2.1 f.1

/-- The bytes `c` occur in `s` starting at position `i`. -/
def chunkAt (s : Bytes) (i : Nat) (c : Bytes) : Prop :=
  (s.drop i).take c.length = c

/-- A byte string decodes (at any position, under any sufficient fuel,
with at least one byte following) to a fixed item, consuming exactly its
own bytes. -/
def decodesTo (bs : Bytes) (it : Item) : Prop :=
  ∀ (s : Bytes) (i fuel : Nat), chunkAt s i bs → i + bs.length < s.length →
    5 * bs.length ≤ fuel → decodeItem fuel ⟨s, i⟩ = Except.ok (it, ⟨s, i + bs.length⟩)

theorem leafType_of_not_isPtr (L : GoType) (h : L.isPtr = false) : leafType L = L := by
  cases L <;> first | rfl | simp [GoType.isPtr] at h

theorem leafType_iterPtr (k : Nat) (L : GoType) : leafType (iterPtr k L) = leafType L := by
  induction k with
  | zero => rfl
  | succ k ih => simp [iterPtr, leafType, ih]

theorem handleItemCasting_vnil_eq_setGo (D : GoType) (h1 : leafType D ≠ GoType.tAtom)
    (h2 : leafType D ≠ GoType.tInterface) (h3 : leafType D ≠ GoType.tUncasted) :
    handleItemCasting Item.vnil D = setGo D none := by
  unfold handleItemCasting
  cases hL : leafType D
  case tAtom => exact absurd hL h1
  case tInterface => exact absurd hL h2
  case tUncasted => exact absurd hL h3
  all_goals rfl

theorem setGo_tPtr_of_isPtr (e : GoType) (he : e.isPtr = true) (p : Option GoValue) :
    setGo (GoType.tPtr e) p = (setGo e p).map (fun v => GoValue.vPtr (some v)) := by
  cases p <;> simp [setGo, he]

theorem setGo_tPtr_of_not_isPtr (e : GoType) (he : e.isPtr = false) :
    setGo (GoType.tPtr e) none = Except.ok (GoValue.vPtr none) := by
  simp [setGo, he]

theorem setGo_iterPtr_none (k : Nat) (L : GoType) (h : L.isPtr = false) :
    setGo (iterPtr (k + 1) L) none = Except.ok (nilChain k) := by
  induction k with
  | zero =>
    show setGo (GoType.tPtr (iterPtr 0 L)) none = _
    rw [show iterPtr 0 L = L from rfl, setGo_tPtr_of_not_isPtr L h]
    rfl
  | succ k ih =>
    show setGo (GoType.tPtr (iterPtr (k + 1) L)) none = _
    rw [setGo_tPtr_of_isPtr _ (by simp [iterPtr, GoType.isPtr]) none, ih]
    rfl

theorem setGo_nonptr_none (L : GoType) (h : L.isPtr = false) :
    setGo L none =
      Except.error "cannot nil a value pointer, this should be a pointer to a pointer" := by
  cases L <;> first | rfl | simp [GoType.isPtr] at h

/-- C7 (counterexample): casting a decoded `nil` into a destination with
two layers of indirection does not clear the outermost layer: the result
is a freshly allocated outer pointer whose inner pointer is nil, not a nil
outermost pointer. -/
theorem c7_nil_depth_two_counterexample :
    handleItemCasting Item.vnil (GoType.tPtr (GoType.tPtr GoType.tInt)) =
      Except.ok (GoValue.vPtr (some (GoValue.vPtr none))) ∧
    GoValue.vPtr (some (GoValue.vPtr none)) ≠ GoValue.vPtr none :=
  ⟨rfl, by simp⟩

/-- C7 (amended): casting a decoded `nil` (Absent) into a non-Atom
destination with `k + 1` layers of indirection allocates the outer `k`
layers freshly and clears exactly the innermost layer to nil; a bare value
slot (no indirection) fails with an error. -/
theorem c7_nil_clears_innermost_layer (L : GoType) (h1 : L.isPtr = false)
    (h2 : L ≠ GoType.tAtom) (h3 : L ≠ GoType.tInterface) (h4 : L ≠ GoType.tUncasted) :
    (∀ k, handleItemCasting Item.vnil (iterPtr (k + 1) L) = Except.ok (nilChain k)) ∧
    isOkE (handleItemCasting Item.vnil L) = false := by
  have hL : leafType L = L := leafType_of_not_isPtr L h1
  constructor
  · intro k
    have e : leafType (iterPtr (k + 1) L) = L := by rw [leafType_iterPtr, hL]
    rw [handleItemCasting_vnil_eq_setGo _ (by rw [e]; exact h2) (by rw [e]; exact h3)
        (by rw [e]; exact h4),
      setGo_iterPtr_none k L h1]
  · rw [handleItemCasting_vnil_eq_setGo L (by rw [hL]; exact h2) (by rw [hL]; exact h3)
        (by rw [hL]; exact h4),
      setGo_nonptr_none L h1]
    rfl

/-- Witness for `c7_nil_clears_innermost_layer` at the leaf type `int`. -/
theorem c7_nil_clears_innermost_layer_witness :
    (GoType.tInt.isPtr = false ∧ GoType.tInt ≠ GoType.tAtom ∧
      GoType.tInt ≠ GoType.tInterface ∧ GoType.tInt ≠ GoType.tUncasted) ∧
    ((∀ k, handleItemCasting Item.vnil (iterPtr (k + 1) GoType.tInt) =
        Except.ok (nilChain k)) ∧
      isOkE (handleItemCasting Item.vnil GoType.tInt) = false) :=
  ⟨⟨rfl, fun h => GoType.noConfusion h, fun h => GoType.noConfusion h,
      fun h => GoType.noConfusion h⟩,
    c7_nil_clears_innermost_layer GoType.tInt rfl (fun h => GoType.noConfusion h)
      (fun h => GoType.noConfusion h) (fun h => GoType.noConfusion h)⟩

/-- C1 (code bug): the `'n'` decoder's multiplier starts at 0 and only
ever shifts, so every decoded 64-bit integer is 0: the wire terms for 5,
257 and -5 all decode to 0 instead of the little-endian weighted value. -/
theorem c1_int64_always_decodes_to_zero :
    Unpack [131, 110, 1, 0, 5] GoType.tInt64 = Except.ok (GoValue.vInt64 0) ∧
    Unpack [131, 110, 2, 0, 1, 1] GoType.tInt64 = Except.ok (GoValue.vInt64 0) ∧
    Unpack [131, 110, 1, 1, 5] GoType.tInt64 = Except.ok (GoValue.vInt64 0) :=
  ⟨rfl, rfl, rfl⟩

/-- C2 (code bug): a 4-byte length field truncated by the end of the
buffer is zero-padded by `bytes.Reader.Read` (which reports no error on a
partial read), so `[131, 'l', 0, 0]` decodes to the empty list and
`[131, 'b', 0, 0]` decodes to the int32 0 instead of failing. -/
theorem c2_truncated_length_is_zero_padded :
    Unpack [131, 108, 0, 0] GoType.tInterface =
      Except.ok (GoValue.vInterface (Item.list [])) ∧
    Unpack [131, 98, 0, 0] GoType.tInt32 = Except.ok (GoValue.vInt32 0) :=
  ⟨rfl, rfl⟩

/-- C3 (code bug): on the well-formed int64 term `[110, 1, 0, 5]` (tag,
count 1, sign 0, magnitude 5) materialize-mode decoding consumes through
position 4, while raw mode consumes only through position 3 and captures
`[110, 1, 0]`: the raw path never accounts for the sign byte, so the two
modes do not consume the same bytes. -/
theorem c3_raw_int64_misses_sign_byte :
    decodeItem 10 ⟨[110, 1, 0, 5], 0⟩ =
      Except.ok (Item.int64 0, ⟨[110, 1, 0, 5], 4⟩) ∧
    processRawData 10 110 ⟨[110, 1, 0, 5], 1⟩ =
      Except.ok ([110, 1, 0], ⟨[110, 1, 0, 5], 3⟩) ∧
    Unpack [131, 110, 1, 0, 5] GoType.tRawData =
      Except.ok (GoValue.vRawData [110, 1, 0]) ∧
    (3 : Nat) ≠ 4 :=
  ⟨rfl, rfl, rfl, by decide⟩

/-- C4 (counterexample): casting a decoded SmallInteger or Integer32 into
an int64 destination fails, though the claim says widening succeeds. -/
theorem c4_int64_destination_counterexample :
    isOkE (Unpack [131, 97, 5] GoType.tInt64) = false ∧
    isOkE (Unpack [131, 98, 0, 0, 0, 7] GoType.tInt64) = false :=
  ⟨rfl, rfl⟩

/-- C4 (amended): a decoded SmallInteger casts into uint8, uint and int
destinations with the same value but fails on int64 and float64; a decoded
Integer32 casts into int32 and int destinations with the same value but
fails on int64 and float64. -/
theorem c4_integer_casting (n : Nat) (i : Int) :
    handleItemCasting (Item.uint8 n) GoType.tUint8 = Except.ok (GoValue.vUint8 n) ∧
    handleItemCasting (Item.uint8 n) GoType.tUint = Except.ok (GoValue.vUint n) ∧
    handleItemCasting (Item.uint8 n) GoType.tInt = Except.ok (GoValue.vInt n) ∧
    isOkE (handleItemCasting (Item.uint8 n) GoType.tInt64) = false ∧
    isOkE (handleItemCasting (Item.uint8 n) GoType.tFloat64) = false ∧
    handleItemCasting (Item.int32 i) GoType.tInt32 = Except.ok (GoValue.vInt32 i) ∧
    handleItemCasting (Item.int32 i) GoType.tInt = Except.ok (GoValue.vInt i) ∧
    isOkE (handleItemCasting (Item.int32 i) GoType.tInt64) = false ∧
    isOkE (handleItemCasting (Item.int32 i) GoType.tFloat64) = false :=
  ⟨rfl, rfl, rfl, rfl, rfl, rfl, rfl, rfl, rfl⟩

/-- C5 (code bug): `matchRest` only checks a prefix, so the atom `truex`
decodes to the boolean true and the atom `nile` decodes to nil instead of
staying atoms carrying their name bytes. -/
theorem c5_atom_reservation_matches_prefix :
    Unpack [131, 115, 5, 116, 114, 117, 101, 120] GoType.tInterface =
      Except.ok (GoValue.vInterface (Item.bool true)) ∧
    Unpack [131, 115, 4, 110, 105, 108, 101] GoType.tInterface =
      Except.ok (GoValue.vInterface Item.vnil) ∧
    processAtom [116, 114, 117, 101, 120] = some (Item.bool true) :=
  ⟨rfl, rfl, rfl⟩

/-- C8 (code bug): a zero-length binary whose empty payload read falls at
the end of the buffer fails (Go's `bytes.Reader.Read` checks for EOF
before checking the zero buffer size), while the same term followed by one
more byte decodes to the empty string / empty byte slice. -/
theorem c8_empty_binary_at_buffer_end :
    isOkE (Unpack [131, 109, 0, 0, 0, 0] GoType.tString) = false ∧
    Unpack [131, 109, 0, 0, 0, 0, 99] GoType.tString =
      Except.ok (GoValue.vString []) ∧
    isOkE (Unpack [131, 109, 0, 0, 0, 0] GoType.tBytes) = false ∧
    Unpack [131, 109, 0, 0, 0, 0, 99] GoType.tBytes =
      Except.ok (GoValue.vBytes []) :=
  ⟨rfl, rfl, rfl, rfl⟩

theorem basePtrWalk_eq_getBasePtrU : (t : GoType) → basePtrWalk t = getBasePtrU t
| GoType.tInterface => rfl
| GoType.tUncasted => rfl
| GoType.tAtom => rfl
| GoType.tInt => rfl
| GoType.tInt64 => rfl
| GoType.tInt32 => rfl
| GoType.tUint => rfl
| GoType.tUint8 => rfl
| GoType.tFloat64 => rfl
| GoType.tString => rfl
| GoType.tBytes => rfl
| GoType.tBool => rfl
| GoType.tRawData => rfl
| GoType.tJsonRaw => rfl
| GoType.tSlice _ => rfl
| GoType.tMap _ _ => rfl
| GoType.tStruct _ => rfl
| GoType.tPtr e => by
  simp only [basePtrWalk, getBasePtrU, basePtrWalk_eq_getBasePtrU e]

theorem setGo_eq_setU : (t : GoType) → (p : Option GoValue) → setGo t p = setU t p
| GoType.tInterface, p => by cases p <;> rfl
| GoType.tUncasted, p => by cases p <;> rfl
| GoType.tAtom, p => by cases p <;> rfl
| GoType.tInt, p => by cases p <;> rfl
| GoType.tInt64, p => by cases p <;> rfl
| GoType.tInt32, p => by cases p <;> rfl
| GoType.tUint, p => by cases p <;> rfl
| GoType.tUint8, p => by cases p <;> rfl
| GoType.tFloat64, p => by cases p <;> rfl
| GoType.tString, p => by cases p <;> rfl
| GoType.tBytes, p => by cases p <;> rfl
| GoType.tBool, p => by cases p <;> rfl
| GoType.tRawData, p => by cases p <;> rfl
| GoType.tJsonRaw, p => by cases p <;> rfl
| GoType.tSlice _, p => by cases p <;> rfl
| GoType.tMap _ _, p => by cases p <;> rfl
| GoType.tStruct _, p => by cases p <;> rfl
| GoType.tPtr e, p => by
  cases p with
  | none => simp only [setGo, setU, setGo_eq_setU e none]
  | some v => simp only [setGo, setU, setGo_eq_setU e (some v)]

/-- Sanity: `getBasePtr` on a setter wrapping a `*D` returns the innermost
non-pointer type of `D`, the `leafType` the main model dispatches on. -/
theorem basePtrWalk_ptr : (D : GoType) → basePtrWalk (GoType.tPtr D) = some (leafType D)
| GoType.tInterface => rfl
| GoType.tUncasted => rfl
| GoType.tAtom => rfl
| GoType.tInt => rfl
| GoType.tInt64 => rfl
| GoType.tInt32 => rfl
| GoType.tUint => rfl
| GoType.tUint8 => rfl
| GoType.tFloat64 => rfl
| GoType.tString => rfl
| GoType.tBytes => rfl
| GoType.tBool => rfl
| GoType.tRawData => rfl
| GoType.tJsonRaw => rfl
| GoType.tSlice _ => rfl
| GoType.tMap _ _ => rfl
| GoType.tStruct _ => rfl
| GoType.tPtr e => by
  simp only [basePtrWalk, GoType.isPtr, if_true, leafType]
  exact basePtrWalk_ptr e

/-- C9: the cached and cache-free `pointerSetter` implementations agree: a
first `getBasePtr` call returns the same base type in both versions,
repeated calls on the cached version return exactly what the first call
returned, and `set` is pointwise identical. -/
theorem c9_pointer_setter_equivalence (t : GoType) (p : Option GoValue) :
    (getBasePtrC ⟨t, none⟩).1 = getBasePtrU t ∧
    getBasePtrC (getBasePtrC ⟨t, none⟩).2 = getBasePtrC ⟨t, none⟩ ∧
    setGo t p = setU t p := by
  refine ⟨?_, ?_, setGo_eq_setU t p⟩
  · rw [← basePtrWalk_eq_getBasePtrU]
    cases h : basePtrWalk t <;> simp [getBasePtrC, h]
  · cases h : basePtrWalk t <;> simp [getBasePtrC, h]

/-- Go map lookup after a Go map assignment. -/
theorem lookupB_assocSetB (m : List (Bytes × Bytes)) (k v key) :
    lookupB (assocSetB m k v) key = if k = key then some v else lookupB m key := by
  induction m with
  | nil => simp [assocSetB, lookupB]
  | cons e rest ih =>
    obtain ⟨k', v'⟩ := e
    by_cases h : k' = k
    · subst h
      by_cases hk : k' = key <;> simp [assocSetB, lookupB, hk]
    · by_cases h1 : k' = key <;> by_cases h2 : k = key <;>
        simp_all [assocSetB, lookupB]

theorem tag2field_eq_foldl (fields : List (Bytes × Bytes × GoType)) :
    tag2field fields = List.foldl tagStep [] fields := rfl

theorem tagStep_eq (m : List (Bytes × Bytes)) (f : Bytes × Bytes × GoType) :
    tagStep m f = match effTag f with
      | none => m
      | some t => assocSetB m t f.1 := by
  unfold tagStep effTag
  split_ifs <;> rfl

theorem foldl_tagStep_no_tag (fields : List (Bytes × Bytes × GoType)) (s : Bytes)
    (h : ∀ f ∈ fields, effTag f ≠ some s) :
    ∀ acc, lookupB (List.foldl tagStep acc fields) s = lookupB acc s := by
  induction fields with
  | nil => intro acc; rfl
  | cons f rest ih =>
    intro acc
    rw [List.foldl_cons, ih (fun g hg => h g (List.mem_cons_of_mem f hg)), tagStep_eq]
    cases ht : effTag f with
    | none => rfl
    | some t =>
      have : t ≠ s := fun hts => h f (List.mem_cons_self f rest) (hts ▸ ht)
      simp [lookupB_assocSetB, this]

theorem foldl_tagStep_mem (fields : List (Bytes × Bytes × GoType)) (s name : Bytes) :
    ∀ acc, lookupB (List.foldl tagStep acc fields) s = some name →
      (∃ f ∈ fields, effTag f = some s ∧ f.1 = name) ∨ lookupB acc s = some name := by
  induction fields with
  | nil => intro acc h; exact Or.inr h
  | cons f rest ih =>
    intro acc h
    rw [List.foldl_cons] at h
    rcases ih _ h with hmem | hacc
    · obtain ⟨g, hg, h1, h2⟩ := hmem
      exact Or.inl ⟨g, List.mem_cons_of_mem f hg, h1, h2⟩
    · rw [tagStep_eq] at hacc
      cases ht : effTag f with
      | none => rw [ht] at hacc; exact Or.inr hacc
      | some t =>
        rw [ht, lookupB_assocSetB] at hacc
        by_cases hts : t = s
        · subst hts
          simp at hacc
          exact Or.inl ⟨f, List.mem_cons_self f rest, ht, hacc⟩
        · rw [if_neg hts] at hacc
          exact Or.inr hacc

theorem foldl_tagStep_unique (fields : List (Bytes × Bytes × GoType))
    (f : Bytes × Bytes × GoType) (s : Bytes) :
    f ∈ fields → effTag f = some s → (∀ g ∈ fields, effTag g = some s → g = f) →
    ∀ acc, lookupB (List.foldl tagStep acc fields) s = some f.1 := by
  induction fields with
  | nil => intro hf; exact absurd hf (List.not_mem_nil f)
  | cons g rest ih =>
    intro hf ht huniq acc
    rw [List.foldl_cons]
    by_cases hfr : f ∈ rest
    · exact ih hfr ht (fun g' hg' h' => huniq g' (List.mem_cons_of_mem g hg') h') _
    · have hgf : g = f := by
        rcases List.mem_cons.mp hf with h | h
        · exact h.symm
        · exact absurd h hfr
      subst hgf
      have hrest : ∀ g' ∈ rest, effTag g' ≠ some s := by
        intro g' hg' h'
        exact hfr ((huniq g' (List.mem_cons_of_mem g hg') h') ▸ hg')
      rw [foldl_tagStep_no_tag rest s hrest, tagStep_eq, ht, lookupB_assocSetB]
      simp

theorem effTag_unique (fields : List (Bytes × Bytes × GoType))
    (htags : (fields.filterMap effTag).Nodup) {f g : Bytes × Bytes × GoType} {t : Bytes} :
    f ∈ fields → g ∈ fields → effTag f = some t → effTag g = some t → f = g := by
  induction fields with
  | nil => intro hf; exact absurd hf (List.not_mem_nil f)
  | cons h rest ih =>
    intro hf hg h1 h2
    rw [List.filterMap_cons] at htags
    cases hh : effTag h with
    | none =>
      rw [hh] at htags
      rcases List.mem_cons.mp hf with rfl | hf'
      · rw [h1] at hh; exact absurd hh (by simp)
      · rcases List.mem_cons.mp hg with rfl | hg'
        · rw [h2] at hh; exact absurd hh (by simp)
        · exact ih htags hf' hg' h1 h2
    | some th =>
      rw [hh] at htags
      have hnd := List.nodup_cons.mp htags
      rcases List.mem_cons.mp hf with rfl | hf' <;> rcases List.mem_cons.mp hg with rfl | hg'
      · rfl
      · rw [h1] at hh
        have : t ∈ rest.filterMap effTag := List.mem_filterMap.mpr ⟨g, hg', h2⟩
        exact absurd ((Option.some_inj.mp hh) ▸ this) hnd.1
      · rw [h2] at hh
        have : t ∈ rest.filterMap effTag := List.mem_filterMap.mpr ⟨f, hf', h1⟩
        exact absurd ((Option.some_inj.mp hh) ▸ this) hnd.1
      · exact ih hnd.2 hf' hg' h1 h2

theorem tag2field_some {fields : List (Bytes × Bytes × GoType)} {s name : Bytes} :
    lookupB (tag2field fields) s = some name →
    ∃ f ∈ fields, effTag f = some s ∧ f.1 = name := by
  intro h
  rw [tag2field_eq_foldl] at h
  rcases foldl_tagStep_mem fields s name [] h with hmem | habs
  · exact hmem
  · exact absurd habs (by simp [lookupB])

theorem tag2field_of_effTag {fields : List (Bytes × Bytes × GoType)}
    {f : Bytes × Bytes × GoType} {s : Bytes}
    (htags : (fields.filterMap effTag).Nodup) (hf : f ∈ fields) (ht : effTag f = some s) :
    lookupB (tag2field fields) s = some f.1 := by
  rw [tag2field_eq_foldl]
  exact foldl_tagStep_unique fields f s hf ht
    (fun g hg h' => effTag_unique fields htags hg hf h' ht) []

theorem name_unique {fields : List (Bytes × Bytes × GoType)}
    (hnames : (fields.map (fun f => f.1)).Nodup) {f g : Bytes × Bytes × GoType} :
    f ∈ fields → g ∈ fields → f.1 = g.1 → f = g :=
  fun hf hg h => List.inj_on_of_nodup_map hnames hf hg h

theorem findField_of_mem {fields : List (Bytes × Bytes × GoType)}
    (hnames : (fields.map (fun f => f.1)).Nodup) {f : Bytes × Bytes × GoType}
    (hf : f ∈ fields) : findField fields f.1 = some f := by
  induction fields with
  | nil => exact absurd hf (List.not_mem_nil f)
  | cons g rest ih =>
    rw [List.map_cons, List.nodup_cons] at hnames
    rcases List.mem_cons.mp hf with rfl | hf'
    · simp [findField, List.find?]
    · have hne : ¬(g.1 = f.1) := by
        intro h
        exact hnames.1 (h ▸ (List.mem_map.mpr ⟨f, hf', rfl⟩))
      simpa [findField, List.find?_cons, hne] using ih hnames.2 hf'

theorem findField_mem {fields : List (Bytes × Bytes × GoType)}
    {name : Bytes} {f : Bytes × Bytes × GoType}
    (h : findField fields name = some f) : f ∈ fields ∧ f.1 = name := by
  refine ⟨List.mem_of_find?_eq_some h, ?_⟩
  have := List.find?_some h
  simpa using this

theorem findField_isSome {fields : List (Bytes × Bytes × GoType)} {name : Bytes}
    (h : ∃ f ∈ fields, f.1 = name) : (findField fields name).isSome := by
  rw [findField, List.find?_isSome]
  obtain ⟨f, hf, he⟩ := h
  exact ⟨f, hf, by simp [he]⟩

theorem lookupF_setField_other {l : List (Bytes × GoValue)} {name key : Bytes}
    (w : GoValue) (h : name ≠ key) :
    lookupF (setField l name w) key = lookupF l key := by
  induction l with
  | nil => rfl
  | cons e rest ih =>
    obtain ⟨k, v⟩ := e
    simp only [setField, List.map_cons] at ih ⊢
    by_cases hk : k = name
    · rw [if_pos hk]
      subst hk
      simp only [lookupF]
      rw [if_neg h, if_neg h]
      exact ih
    · rw [if_neg hk]
      simp only [lookupF]
      by_cases hk2 : k = key
      · rw [if_pos hk2, if_pos hk2]
      · rw [if_neg hk2, if_neg hk2]
        exact ih

theorem lookupF_setField_same {l : List (Bytes × GoValue)} {name : Bytes} (w : GoValue) :
    lookupF (setField l name w) name = (lookupF l name).map (fun _ => w) := by
  induction l with
  | nil => rfl
  | cons e rest ih =>
    obtain ⟨k, v⟩ := e
    simp only [setField, List.map_cons] at ih ⊢
    by_cases hk : k = name
    · rw [if_pos hk]
      simp only [lookupF]
      rw [if_pos hk, if_pos hk]
      rfl
    · rw [if_neg hk]
      simp only [lookupF]
      rw [if_neg hk, if_neg hk]
      exact ih

theorem lookupF_zeroFields {fields : List (Bytes × Bytes × GoType)}
    (hnames : (fields.map (fun f => f.1)).Nodup) {f : Bytes × Bytes × GoType}
    (hf : f ∈ fields) : lookupF (zeroFields fields) f.1 = some (zeroOf f.2.2) := by
  induction fields with
  | nil => exact absurd hf (List.not_mem_nil f)
  | cons g rest ih =>
    rw [List.map_cons, List.nodup_cons] at hnames
    rcases List.mem_cons.mp hf with rfl | hf'
    · simp [zeroFields, lookupF]
    · have hne : ¬(g.1 = f.1) := by
        intro h
        exact hnames.1 (h ▸ (List.mem_map.mpr ⟨f, hf', rfl⟩))
      simpa [zeroFields, lookupF, hne] using ih hnames.2 hf'

theorem castStructPairs_nil (fields : List (Bytes × Bytes × GoType))
    (acc : List (Bytes × GoValue)) : castStructPairs [] fields acc = Except.ok acc := rfl

theorem castStructPairs_cons_str (s : Bytes) (v : Item) (rest : List (Item × Item))
    (fields : List (Bytes × Bytes × GoType)) (acc : List (Bytes × GoValue)) :
    castStructPairs ((Item.str s, v) :: rest) fields acc =
      match lookupB (tag2field fields) s with
      | none => castStructPairs rest fields acc
      | some fieldName =>
        match findField fields fieldName with
        | none => Except.error "failed to get field"
        | some f =>
          (handleItemCasting v f.2.2) >>= fun r =>
            castStructPairs rest fields (setField acc fieldName r) := rfl

theorem castStructPairs_cons_badkey (k v : Item) (rest : List (Item × Item))
    (fields : List (Bytes × Bytes × GoType)) (acc : List (Bytes × GoValue))
    (h : ∀ s, k ≠ Item.str s) :
    castStructPairs ((k, v) :: rest) fields acc = Except.error "key must be string" := by
  cases k with
  | str s => exact absurd rfl (h s)
  | atom a => rfl
  | int64 n => rfl
  | int32 n => rfl
  | uint8 n => rfl
  | float b => rfl
  | bytes b => rfl
  | bool b => rfl
  | vnil => rfl
  | list xs => rfl
  | map ps => rfl

theorem exceptBind_ok {α β : Type} (a : α) (f : α → Except String β) :
    (Except.ok a >>= f) = f a := rfl

theorem exceptBind_error {α β : Type} (e : String) (f : α → Except String β) :
    ((Except.error e : Except String α) >>= f) = Except.error e := rfl

theorem castStructPairs_skip {fields : List (Bytes × Bytes × GoType)} {s : Bytes}
    (v : Item) (rest : List (Item × Item)) (acc : List (Bytes × GoValue))
    (hl : lookupB (tag2field fields) s = none) :
    castStructPairs ((Item.str s, v) :: rest) fields acc =
      castStructPairs rest fields acc := by
  rw [castStructPairs_cons_str, hl]

theorem castStructPairs_nofield {fields : List (Bytes × Bytes × GoType)} {s fn : Bytes}
    (v : Item) (rest : List (Item × Item)) (acc : List (Bytes × GoValue))
    (hl : lookupB (tag2field fields) s = some fn) (hf : findField fields fn = none) :
    castStructPairs ((Item.str s, v) :: rest) fields acc =
      Except.error "failed to get field" := by
  rw [castStructPairs_cons_str, hl]
  simp only [hf]

theorem castStructPairs_step {fields : List (Bytes × Bytes × GoType)} {s fn : Bytes}
    {f : Bytes × Bytes × GoType} (v : Item) (rest : List (Item × Item))
    (acc : List (Bytes × GoValue))
    (hl : lookupB (tag2field fields) s = some fn) (hf : findField fields fn = some f) :
    castStructPairs ((Item.str s, v) :: rest) fields acc =
      (handleItemCasting v f.2.2) >>= fun r =>
        castStructPairs rest fields (setField acc fn r) := by
  rw [castStructPairs_cons_str, hl]
  simp only [hf]

theorem castStructPairs_badkey (fields : List (Bytes × Bytes × GoType)) :
    ∀ ps : List (Item × Item), (∃ kv ∈ ps, ∀ s, kv.1 ≠ Item.str s) →
    ∀ acc, isOkE (castStructPairs ps fields acc) = false := by
  intro ps
  induction ps with
  | nil =>
    rintro ⟨kv, hkv, _⟩ acc
    exact absurd hkv (List.not_mem_nil kv)
  | cons e rest ih =>
    rintro ⟨kv, hkv, hns⟩ acc
    obtain ⟨k, v⟩ := e
    by_cases hstr : ∀ s, k ≠ Item.str s
    · rw [castStructPairs_cons_badkey k v rest fields acc hstr]
      rfl
    · push_neg at hstr
      obtain ⟨s, rfl⟩ := hstr
      have hkvr : kv ∈ rest := by
        rcases List.mem_cons.mp hkv with rfl | hr
        · exact absurd rfl (hns s)
        · exact hr
      cases hl : lookupB (tag2field fields) s with
      | none =>
        rw [castStructPairs_skip v rest acc hl]
        exact ih ⟨kv, hkvr, hns⟩ acc
      | some fn =>
        cases hf : findField fields fn with
        | none => rw [castStructPairs_nofield v rest acc hl hf]; rfl
        | some f =>
          rw [castStructPairs_step v rest acc hl hf]
          cases hc : handleItemCasting v f.2.2 with
          | error e => rw [exceptBind_error]; rfl
          | ok r =>
            rw [exceptBind_ok]
            exact ih ⟨kv, hkvr, hns⟩ (setField acc fn r)

theorem castStructPairs_untouched (fields : List (Bytes × Bytes × GoType)) (name : Bytes) :
    ∀ ps : List (Item × Item),
    (∀ kv ∈ ps, ∀ s : Bytes, kv.1 = Item.str s → lookupB (tag2field fields) s ≠ some name) →
    ∀ acc L, castStructPairs ps fields acc = Except.ok L →
      lookupF L name = lookupF acc name := by
  intro ps
  induction ps with
  | nil =>
    intro _ acc L h
    rw [castStructPairs_nil] at h
    cases h
    rfl
  | cons e rest ih =>
    intro h acc L hrun
    obtain ⟨k, v⟩ := e
    by_cases hstr : ∀ s, k ≠ Item.str s
    · rw [castStructPairs_cons_badkey k v rest fields acc hstr] at hrun
      cases hrun
    · push_neg at hstr
      obtain ⟨s, rfl⟩ := hstr
      have hrest : ∀ kv ∈ rest, ∀ s' : Bytes, kv.1 = Item.str s' →
          lookupB (tag2field fields) s' ≠ some name :=
        fun kv hkv => h kv (List.mem_cons_of_mem _ hkv)
      cases hl : lookupB (tag2field fields) s with
      | none =>
        rw [castStructPairs_skip v rest acc hl] at hrun
        exact ih hrest acc L hrun
      | some fn =>
        have hfn : fn ≠ name := fun he =>
          h (Item.str s, v) (List.mem_cons_self _ _) s rfl (he ▸ hl)
        cases hf : findField fields fn with
        | none =>
          rw [castStructPairs_nofield v rest acc hl hf] at hrun
          cases hrun
        | some f =>
          rw [castStructPairs_step v rest acc hl hf] at hrun
          cases hc : handleItemCasting v f.2.2 with
          | error e =>
            rw [hc, exceptBind_error] at hrun
            cases hrun
          | ok r =>
            rw [hc, exceptBind_ok] at hrun
            rw [ih hrest (setField acc fn r) L hrun]
            exact lookupF_setField_other r hfn

theorem castStructPairs_assigned (fields : List (Bytes × Bytes × GoType))
    (t : Bytes) (v : Item) (w : GoValue) (name : Bytes) :
    ∀ ps : List (Item × Item), (ps.map Prod.fst).Nodup →
    (Item.str t, v) ∈ ps →
    lookupB (tag2field fields) t = some name →
    (∀ s fn : Bytes, lookupB (tag2field fields) s = some fn → fn = name → s = t) →
    (∀ f, findField fields name = some f → handleItemCasting v f.2.2 = Except.ok w) →
    ∀ acc, (lookupF acc name).isSome →
    ∀ L, castStructPairs ps fields acc = Except.ok L → lookupF L name = some w := by
  intro ps
  induction ps with
  | nil =>
    intro _ hmem
    exact absurd hmem (List.not_mem_nil _)
  | cons e rest ih =>
    intro hkeys hmem hlk huniq hcast acc hacc L hrun
    obtain ⟨k₀, v₀⟩ := e
    rw [List.map_cons, List.nodup_cons] at hkeys
    by_cases hstr : ∀ s, k₀ ≠ Item.str s
    · rw [castStructPairs_cons_badkey k₀ v₀ rest fields acc hstr] at hrun
      cases hrun
    · push_neg at hstr
      obtain ⟨s₀, rfl⟩ := hstr
      by_cases hst : s₀ = t
      · -- the head pair carries our key
        subst hst
        have hv : v₀ = v := by
          rcases List.mem_cons.mp hmem with he | hr
          · exact (Prod.mk.injEq _ _ _ _ ▸ he).2.symm
          · exact absurd (List.mem_map.mpr ⟨(Item.str s₀, v), hr, rfl⟩) hkeys.1
        subst hv
        cases hf : findField fields name with
        | none =>
          rw [castStructPairs_nofield v₀ rest acc hlk hf] at hrun
          cases hrun
        | some f =>
          rw [castStructPairs_step v₀ rest acc hlk hf, hcast f hf, exceptBind_ok] at hrun
          have hrest : ∀ kv ∈ rest, ∀ s' : Bytes, kv.1 = Item.str s' →
              lookupB (tag2field fields) s' ≠ some name := by
            intro kv hkv s' hkv1 hlk'
            have hs't : s' = s₀ := huniq s' name hlk' rfl
            exact hkeys.1 (List.mem_map.mpr ⟨kv, hkv, by rw [hkv1, hs't]⟩)
          rw [castStructPairs_untouched fields name rest hrest _ L hrun,
            lookupF_setField_same w]
          obtain ⟨z, hz⟩ := Option.isSome_iff_exists.mp hacc
          rw [hz]
          rfl
      · -- the head pair has a different key
        have hmemr : (Item.str t, v) ∈ rest := by
          rcases List.mem_cons.mp hmem with he | hr
          · exact absurd (Item.str.inj (congrArg Prod.fst he)).symm hst
          · exact hr
        cases hl0 : lookupB (tag2field fields) s₀ with
        | none =>
          rw [castStructPairs_skip v₀ rest acc hl0] at hrun
          exact ih hkeys.2 hmemr hlk huniq hcast acc hacc L hrun
        | some fn₀ =>
          have hfn : fn₀ ≠ name := fun he => hst (huniq s₀ fn₀ hl0 he)
          cases hf0 : findField fields fn₀ with
          | none =>
            rw [castStructPairs_nofield v₀ rest acc hl0 hf0] at hrun
            cases hrun
          | some f₀ =>
            rw [castStructPairs_step v₀ rest acc hl0 hf0] at hrun
            cases hc : handleItemCasting v₀ f₀.2.2 with
            | error e =>
              rw [hc, exceptBind_error] at hrun
              cases hrun
            | ok r₀ =>
              rw [hc, exceptBind_ok] at hrun
              have hacc' : (lookupF (setField acc fn₀ r₀) name).isSome := by
                rw [lookupF_setField_other r₀ hfn]
                exact hacc
              exact ih hkeys.2 hmemr hlk huniq hcast _ hacc' L hrun

theorem castStructPairs_success (fields : List (Bytes × Bytes × GoType)) :
    ∀ ps : List (Item × Item),
    (∀ kv ∈ ps, ∃ s : Bytes, kv.1 = Item.str s) →
    (∀ (s : Bytes) (v : Item) (fn : Bytes) (f : Bytes × Bytes × GoType),
      (Item.str s, v) ∈ ps → lookupB (tag2field fields) s = some fn →
      findField fields fn = some f → isOkE (handleItemCasting v f.2.2) = true) →
    ∀ acc, isOkE (castStructPairs ps fields acc) = true := by
  intro ps
  induction ps with
  | nil => intro _ _ acc; rfl
  | cons e rest ih =>
    intro hstr hok acc
    obtain ⟨k₀, v₀⟩ := e
    obtain ⟨s₀, rfl⟩ : ∃ s, k₀ = Item.str s := hstr (k₀, v₀) (List.mem_cons_self _ _)
    have hstrr : ∀ kv ∈ rest, ∃ s : Bytes, kv.1 = Item.str s :=
      fun kv hkv => hstr kv (List.mem_cons_of_mem _ hkv)
    have hokr : ∀ (s : Bytes) (v : Item) (fn : Bytes) (f : Bytes × Bytes × GoType),
        (Item.str s, v) ∈ rest → lookupB (tag2field fields) s = some fn →
        findField fields fn = some f → isOkE (handleItemCasting v f.2.2) = true :=
      fun s v fn f hm => hok s v fn f (List.mem_cons_of_mem _ hm)
    cases hl0 : lookupB (tag2field fields) s₀ with
    | none =>
      rw [castStructPairs_skip v₀ rest acc hl0]
      exact ih hstrr hokr acc
    | some fn₀ =>
      have hex : ∃ f ∈ fields, f.1 = fn₀ := by
        obtain ⟨g, hg, _, hgn⟩ := tag2field_some hl0
        exact ⟨g, hg, hgn⟩
      obtain ⟨f₀, hf0⟩ := Option.isSome_iff_exists.mp (findField_isSome hex)
      rw [castStructPairs_step v₀ rest acc hl0 hf0]
      have := hok s₀ v₀ fn₀ f₀ (List.mem_cons_self _ _) hl0 hf0
      cases hc : handleItemCasting v₀ f₀.2.2 with
      | error e => rw [hc] at this; cases this
      | ok r₀ =>
        rw [exceptBind_ok]
        exact ih hstrr hokr (setField acc fn₀ r₀)

theorem handleItemCasting_struct (ps : List (Item × Item))
    (fields : List (Bytes × Bytes × GoType)) :
    handleItemCasting (Item.map ps) (GoType.tStruct fields) =
      (castStructPairs ps fields (zeroFields fields)) >>= fun L =>
        Except.ok (GoValue.vStruct L) := rfl

theorem isOkE_bind_vstruct (x : Except String (List (Bytes × GoValue))) :
    isOkE (x >>= fun L => Except.ok (GoValue.vStruct L)) = isOkE x := by
  cases x <;> rfl

/-- C6: casting a decoded Map into a struct destination (without a custom
decode hook, which is outside this model) under distinct field names,
distinct effective tags and distinct map keys: fields whose effective tag
matches no string key (and all `"-"`-tagged fields) keep their zero value,
a field whose effective tag equals a present string key receives the
recursively cast value, any non-string key makes the cast fail, and when
all keys are strings and all matched values cast successfully the whole
cast succeeds (unmatched keys are ignored). -/
theorem c6_struct_field_mapping
    (fields : List (Bytes × Bytes × GoType)) (ps : List (Item × Item))
    (hnames : (fields.map (fun f => f.1)).Nodup)
    (htags : (fields.filterMap effTag).Nodup)
    (hkeys : (ps.map Prod.fst).Nodup) :
    (∀ L, handleItemCasting (Item.map ps) (GoType.tStruct fields) =
        Except.ok (GoValue.vStruct L) →
      (∀ f ∈ fields, effTag f = none → lookupF L f.1 = some (zeroOf f.2.2)) ∧
      (∀ f ∈ fields, ∀ t : Bytes, effTag f = some t →
        (∀ v : Item, (Item.str t, v) ∉ ps) → lookupF L f.1 = some (zeroOf f.2.2)) ∧
      (∀ f ∈ fields, ∀ (t : Bytes) (v : Item) (w : GoValue), effTag f = some t →
        (Item.str t, v) ∈ ps → handleItemCasting v f.2.2 = Except.ok w →
        lookupF L f.1 = some w)) ∧
    ((∃ kv ∈ ps, ∀ s : Bytes, kv.1 ≠ Item.str s) →
      isOkE (handleItemCasting (Item.map ps) (GoType.tStruct fields)) = false) ∧
    ((∀ kv ∈ ps, ∃ s : Bytes, kv.1 = Item.str s) →
      (∀ f ∈ fields, ∀ (t : Bytes) (v : Item), effTag f = some t →
        (Item.str t, v) ∈ ps → isOkE (handleItemCasting v f.2.2) = true) →
      isOkE (handleItemCasting (Item.map ps) (GoType.tStruct fields)) = true) := by
  refine ⟨?_, ?_, ?_⟩
  · intro L hL
    rw [handleItemCasting_struct] at hL
    have hrun : castStructPairs ps fields (zeroFields fields) = Except.ok L := by
      cases hx : castStructPairs ps fields (zeroFields fields) with
      | error e => rw [hx, exceptBind_error] at hL; cases hL
      | ok L' =>
        rw [hx, exceptBind_ok] at hL
        simp only [Except.ok.injEq, GoValue.vStruct.injEq] at hL
        rw [hL]
    refine ⟨?_, ?_, ?_⟩
    · intro f hf hnone
      have huntouched : ∀ kv ∈ ps, ∀ s : Bytes, kv.1 = Item.str s →
          lookupB (tag2field fields) s ≠ some f.1 := by
        intro kv _ s _ hlk
        obtain ⟨g, hg, hgt, hgn⟩ := tag2field_some hlk
        rw [name_unique hnames hg hf hgn] at hgt
        rw [hnone] at hgt
        cases hgt
      rw [castStructPairs_untouched fields f.1 ps huntouched _ L hrun]
      exact lookupF_zeroFields hnames hf
    · intro f hf t ht hnot
      have huntouched : ∀ kv ∈ ps, ∀ s : Bytes, kv.1 = Item.str s →
          lookupB (tag2field fields) s ≠ some f.1 := by
        intro kv hkv s h1 hlk
        obtain ⟨g, hg, hgt, hgn⟩ := tag2field_some hlk
        rw [name_unique hnames hg hf hgn] at hgt
        rw [ht] at hgt
        have hst : s = t := by injection hgt with h; exact h.symm
        refine hnot kv.2 ?_
        have : kv = (Item.str t, kv.2) := by
          rw [← hst, ← h1]
        exact this ▸ hkv
      rw [castStructPairs_untouched fields f.1 ps huntouched _ L hrun]
      exact lookupF_zeroFields hnames hf
    · intro f hf t v w ht hmem hcast
      refine castStructPairs_assigned fields t v w f.1 ps hkeys hmem
        (tag2field_of_effTag htags hf ht) ?_ ?_ (zeroFields fields) ?_ L hrun
      · intro s fn hlk hfn
        obtain ⟨g, hg, hgt, hgn⟩ := tag2field_some hlk
        rw [hfn] at hgn
        rw [name_unique hnames hg hf hgn] at hgt
        rw [ht] at hgt
        injection hgt with h
        exact h.symm
      · intro f' hf'
        rw [findField_of_mem hnames hf] at hf'
        injection hf' with h
        rw [← h]
        exact hcast
      · rw [lookupF_zeroFields hnames hf]
        rfl
  · intro hbad
    rw [handleItemCasting_struct, isOkE_bind_vstruct]
    exact castStructPairs_badkey fields ps hbad _
  · intro hstr hok
    rw [handleItemCasting_struct, isOkE_bind_vstruct]
    refine castStructPairs_success fields ps hstr ?_ _
    intro s v fn f hm hlk hff
    obtain ⟨g, hg, hgt, hgn⟩ := tag2field_some hlk
    obtain ⟨hfmem, hfname⟩ := findField_mem hff
    have hfg : f = g := name_unique hnames hfmem hg (by rw [hfname, hgn])
    exact hok f hfmem s v (hfg ▸ hgt) hm

/-- Witness for `c6_struct_field_mapping`: a struct with an untagged field
`A`, a field `B` tagged `b`, an excluded field `C`, cast from a map with
keys `A`, `b`, `C`, `Z`. -/
theorem c6_struct_field_mapping_witness :
    ((([([65], [], GoType.tInt), ([66], [98], GoType.tInt),
        ([67], [45], GoType.tInt)] : List (Bytes × Bytes × GoType)).map
          (fun f => f.1)).Nodup ∧
      (([([65], [], GoType.tInt), ([66], [98], GoType.tInt),
        ([67], [45], GoType.tInt)] : List (Bytes × Bytes × GoType)).filterMap
          effTag).Nodup ∧
      (([(Item.str [65], Item.uint8 1), (Item.str [98], Item.uint8 2),
        (Item.str [67], Item.uint8 3), (Item.str [90], Item.uint8 9)] :
          List (Item × Item)).map Prod.fst).Nodup) ∧
    isOkE (handleItemCasting
      (Item.map [(Item.str [65], Item.uint8 1), (Item.str [98], Item.uint8 2),
        (Item.str [67], Item.uint8 3), (Item.str [90], Item.uint8 9)])
      (GoType.tStruct [([65], [], GoType.tInt), ([66], [98], GoType.tInt),
        ([67], [45], GoType.tInt)])) = true := by
  have h1 : (([([65], [], GoType.tInt), ([66], [98], GoType.tInt),
      ([67], [45], GoType.tInt)] : List (Bytes × Bytes × GoType)).map
        (fun f => f.1)).Nodup := by decide
  have h2 : (([([65], [], GoType.tInt), ([66], [98], GoType.tInt),
      ([67], [45], GoType.tInt)] : List (Bytes × Bytes × GoType)).filterMap
        effTag).Nodup := by decide
  have h3 : (([(Item.str [65], Item.uint8 1), (Item.str [98], Item.uint8 2),
      (Item.str [67], Item.uint8 3), (Item.str [90], Item.uint8 9)] :
        List (Item × Item)).map Prod.fst).Nodup := by
    simp [List.nodup_cons]
  refine ⟨⟨h1, h2, h3⟩, ?_⟩
  refine (c6_struct_field_mapping _ _ h1 h2 h3).2.2 ?_ ?_
  · intro kv hkv
    simp only [List.mem_cons, List.not_mem_nil, or_false] at hkv
    rcases hkv with rfl | rfl | rfl | rfl
    · exact ⟨[65], rfl⟩
    · exact ⟨[98], rfl⟩
    · exact ⟨[67], rfl⟩
    · exact ⟨[90], rfl⟩
  · intro f hf t v ht hm
    simp only [List.mem_cons, List.not_mem_nil, or_false] at hf
    rcases hf with rfl | rfl | rfl
    · simp only [effTag] at ht
      norm_num at ht
      subst ht
      simp only [List.mem_cons, Prod.mk.injEq, Item.str.injEq,
        List.not_mem_nil, or_false] at hm
      norm_num at hm
      subst hm
      rfl
    · simp only [effTag] at ht
      norm_num at ht
      subst ht
      simp only [List.mem_cons, Prod.mk.injEq, Item.str.injEq,
        List.not_mem_nil, or_false] at hm
      norm_num at hm
      subst hm
      rfl
    · simp only [effTag] at ht
      norm_num at ht
      exact Option.noConfusion ht

theorem chunkAt_nil (s : Bytes) (i : Nat) : chunkAt s i [] := rfl

theorem chunkAt_length {s : Bytes} {i : Nat} {c : Bytes} (h : chunkAt s i c)
    (hne : c ≠ []) : i + c.length ≤ s.length := by
  unfold chunkAt at h
  have h1 := congrArg List.length h
  rw [List.length_take, List.length_drop] at h1
  have h2 : 1 ≤ c.length := List.length_pos.mpr hne
  omega

theorem chunkAt_cons {s : Bytes} {i b : Nat} {c : Bytes} :
    chunkAt s i (b :: c) ↔ s[i]? = some b ∧ chunkAt s (i + 1) c := by
  unfold chunkAt
  constructor
  · intro h
    have hle : i + (b :: c).length ≤ s.length := chunkAt_length h (by simp)
    have hlen : i < s.length := by simp at hle; omega
    rw [List.drop_eq_getElem_cons hlen, List.length_cons, List.take_succ_cons] at h
    injection h with h1 h2
    exact ⟨by rw [List.getElem?_eq_getElem hlen, h1], h2⟩
  · rintro ⟨hb, hc⟩
    have hlen : i < s.length := by
      rcases List.getElem?_eq_some_iff.mp hb with ⟨h, _⟩
      exact h
    rw [List.length_cons, List.drop_eq_getElem_cons hlen, List.take_succ_cons, hc]
    rw [List.getElem?_eq_getElem hlen] at hb
    injection hb with h1
    rw [h1]

theorem chunkAt_append {s : Bytes} {i : Nat} {c₁ c₂ : Bytes} :
    chunkAt s i (c₁ ++ c₂) ↔ chunkAt s i c₁ ∧ chunkAt s (i + c₁.length) c₂ := by
  induction c₁ generalizing i with
  | nil => simp [chunkAt_nil]
  | cons b c₁ ih =>
    rw [List.cons_append, chunkAt_cons, chunkAt_cons, ih, List.length_cons]
    constructor
    · rintro ⟨hb, h1, h2⟩
      refine ⟨⟨hb, h1⟩, ?_⟩
      have he : i + (c₁.length + 1) = i + 1 + c₁.length := by omega
      rw [he]
      exact h2
    · rintro ⟨⟨hb, h1⟩, h2⟩
      refine ⟨hb, h1, ?_⟩
      have he : i + 1 + c₁.length = i + (c₁.length + 1) := by omega
      rw [he]
      exact h2

theorem readByte_chunk {s : Bytes} {i b : Nat} (h : s[i]? = some b) :
    readByte ⟨s, i⟩ = Except.ok (b, ⟨s, i + 1⟩) := by
  unfold readByte
  rw [h]

theorem readFull_chunk {s : Bytes} {i : Nat} {c : Bytes} (n : Nat)
    (hc : chunkAt s i c) (hn : c.length = n) (hlt : i < s.length) :
    readFull n ⟨s, i⟩ = Except.ok (c, ⟨s, i + n⟩) := by
  unfold readFull
  rw [if_pos hlt]
  unfold chunkAt at hc
  rw [← hn, hc]
  simp

theorem readBytesN_chunk {s : Bytes} {c : Bytes} :
    ∀ {i n : Nat}, chunkAt s i c → c.length = n →
    readBytesN n ⟨s, i⟩ = Except.ok (c, ⟨s, i + n⟩) := by
  induction c with
  | nil =>
    intro i n _ hn
    rw [← hn]
    rfl
  | cons b c ih =>
    intro i n hc hn
    obtain ⟨hb, hc'⟩ := chunkAt_cons.mp hc
    subst hn
    rw [List.length_cons]
    show readBytesN (c.length + 1) ⟨s, i⟩ = _
    rw [show (c.length + 1) = Nat.succ c.length from rfl]
    unfold readBytesN
    rw [readByte_chunk hb]
    simp only [exceptBind_ok]
    rw [ih hc' rfl]
    simp only [exceptBind_ok]
    have he : i + 1 + c.length = i + Nat.succ c.length := by omega
    rw [he]

theorem readIntLoop_chunk {s : Bytes} {c : Bytes} :
    ∀ {i n u : Nat}, chunkAt s i c → c.length = n → u < 18446744073709551616 →
    readIntLoop n u 0 ⟨s, i⟩ = Except.ok (u, ⟨s, i + n⟩) := by
  induction c with
  | nil =>
    intro i n u _ hn _
    rw [← hn]
    rfl
  | cons b c ih =>
    intro i n u hc hn hu
    obtain ⟨hb, hc'⟩ := chunkAt_cons.mp hc
    subst hn
    rw [List.length_cons, show (c.length + 1) = Nat.succ c.length from rfl]
    unfold readIntLoop
    rw [readByte_chunk hb]
    simp only [exceptBind_ok]
    have h1 : (u + b * 0) % 18446744073709551616 = u := by
      rw [Nat.mul_zero, Nat.add_zero]
      exact Nat.mod_eq_of_lt hu
    have h2 : (0 * 256) % 18446744073709551616 = 0 := by norm_num
    rw [h1, h2, ih hc' rfl hu]
    have he : i + 1 + c.length = i + Nat.succ c.length := by omega
    rw [he]

theorem be4_length (n : Nat) : (be4 n).length = 4 := rfl

theorem be32_be4 (n : Nat) (h : n < 4294967296) : be32 (be4 n) = n := by
  simp only [be32, be4]
  omega

theorem exceptMapError_ok {α : Type} (a : α) (g : String → String) :
    (Except.ok a : Except String α).mapError g = Except.ok a := rfl

theorem exceptMapError_error {α : Type} (e : String) (g : String → String) :
    (Except.error e : Except String α).mapError g = Except.error (g e) := rfl

theorem processAtom_isSome (nm : Bytes) (h : nm ≠ []) : ∃ a, processAtom nm = some a := by
  unfold processAtom
  cases nm with
  | nil => exact absurd rfl h
  | cons c rest =>
    dsimp only
    split_ifs <;> exact ⟨_, rfl⟩

theorem WFTerm_length_pos {bs : Bytes} (h : WFTerm bs) : 1 ≤ bs.length := by
  cases h <;> simp

theorem decodeItems_wf : ∀ (cs : List Bytes),
    (∀ c ∈ cs, WFTerm c) → (∀ c ∈ cs, ∃ it, decodesTo c it) →
    ∃ its : List Item, ∀ (s : Bytes) (i g : Nat),
      chunkAt s i cs.flatten → i + cs.flatten.length < s.length →
      5 * cs.flatten.length + 2 ≤ g →
      decodeItems g cs.length ⟨s, i⟩ = Except.ok (its, ⟨s, i + cs.flatten.length⟩) := by
  intro cs
  induction cs with
  | nil =>
    intro _ _
    refine ⟨[], ?_⟩
    intro s i g _ _ hg
    obtain ⟨g', rfl⟩ : ∃ g', g = Nat.succ g' := by
      cases g with
      | zero => omega
      | succ g' => exact ⟨g', rfl⟩
    simp [decodeItems, List.flatten]
  | cons c rest ih =>
    intro hWF hP
    obtain ⟨it, hit⟩ := hP c (List.mem_cons_self c rest)
    obtain ⟨its, hits⟩ := ih (fun d hd => hWF d (List.mem_cons_of_mem c hd))
      (fun d hd => hP d (List.mem_cons_of_mem c hd))
    refine ⟨it :: its, ?_⟩
    intro s i g hc hlt hg
    have hcpos : 1 ≤ c.length := WFTerm_length_pos (hWF c (List.mem_cons_self c rest))
    rw [List.flatten_cons] at hc hlt hg ⊢
    obtain ⟨hc1, hc2⟩ := chunkAt_append.mp hc
    rw [List.length_append] at hlt hg ⊢
    obtain ⟨g', rfl⟩ : ∃ g', g = Nat.succ g' := by
      cases g with
      | zero => omega
      | succ g' => exact ⟨g', rfl⟩
    show decodeItems (Nat.succ g') (rest.length + 1) ⟨s, i⟩ = _
    unfold decodeItems
    rw [hit s i g' hc1 (by omega) (by omega)]
    simp only [exceptBind_ok]
    rw [hits s (i + c.length) g' hc2 (by omega) (by omega)]
    simp only [exceptBind_ok]
    have he : i + c.length + rest.flatten.length = i + (c.length + rest.flatten.length) := by
      omega
    rw [he]

theorem decodeMapPairs_wf : ∀ (prs : List (Bytes × Bytes)),
    (∀ kv ∈ prs, WFTerm kv.1) → (∀ kv ∈ prs, WFTerm kv.2) →
    (∀ kv ∈ prs, ∃ it, decodesTo kv.1 it) → (∀ kv ∈ prs, ∃ it, decodesTo kv.2 it) →
    ∃ kvs : List (Item × Item), ∀ (s : Bytes) (i g : Nat) (acc : List (Item × Item)),
      chunkAt s i (prs.map (fun kv => kv.1 ++ kv.2)).flatten →
      i + (prs.map (fun kv => kv.1 ++ kv.2)).flatten.length < s.length →
      5 * (prs.map (fun kv => kv.1 ++ kv.2)).flatten.length + 2 ≤ g →
      decodeMapPairs g prs.length acc ⟨s, i⟩ =
        Except.ok (kvs.foldl (fun m kv => assocSet m kv.1 kv.2) acc,
          ⟨s, i + (prs.map (fun kv => kv.1 ++ kv.2)).flatten.length⟩) := by
  intro prs
  induction prs with
  | nil =>
    intro _ _ _ _
    refine ⟨[], ?_⟩
    intro s i g acc _ _ hg
    obtain ⟨g', rfl⟩ : ∃ g', g = Nat.succ g' := by
      cases g with
      | zero => omega
      | succ g' => exact ⟨g', rfl⟩
    simp [decodeMapPairs]
  | cons kv rest ih =>
    intro hWF1 hWF2 hP1 hP2
    obtain ⟨k, v⟩ := kv
    obtain ⟨itk, hitk0⟩ := hP1 (k, v) (List.mem_cons_self _ rest)
    obtain ⟨itv, hitv0⟩ := hP2 (k, v) (List.mem_cons_self _ rest)
    have hitk : decodesTo k itk := hitk0
    have hitv : decodesTo v itv := hitv0
    obtain ⟨kvs, hkvs⟩ := ih (fun d hd => hWF1 d (List.mem_cons_of_mem _ hd))
      (fun d hd => hWF2 d (List.mem_cons_of_mem _ hd))
      (fun d hd => hP1 d (List.mem_cons_of_mem _ hd))
      (fun d hd => hP2 d (List.mem_cons_of_mem _ hd))
    refine ⟨(stringifyKey itk, itv) :: kvs, ?_⟩
    intro s i g acc hc hlt hg
    have hkpos : 1 ≤ k.length := WFTerm_length_pos (hWF1 (k, v) (List.mem_cons_self _ rest))
    rw [List.map_cons, List.flatten_cons] at hc hlt hg ⊢
    dsimp only at hc hlt hg ⊢
    obtain ⟨hckv, hcr⟩ := chunkAt_append.mp hc
    rw [List.length_append] at hcr
    obtain ⟨hck, hcv⟩ := chunkAt_append.mp hckv
    rw [List.length_append, List.length_append] at hlt hg ⊢
    obtain ⟨g', rfl⟩ : ∃ g', g = Nat.succ g' := by
      cases g with
      | zero => omega
      | succ g' => exact ⟨g', rfl⟩
    show decodeMapPairs (Nat.succ g') (rest.length + 1) acc ⟨s, i⟩ = _
    unfold decodeMapPairs
    rw [hitk s i g' hck (by omega) (by omega)]
    simp only [exceptBind_ok]
    rw [hitv s (i + k.length) g' hcv (by omega) (by omega)]
    simp only [exceptBind_ok]
    have he : i + k.length + v.length = i + (k.length + v.length) := by omega
    rw [he, hkvs s (i + (k.length + v.length)) g'
      (assocSet acc (stringifyKey itk) itv) hcr (by omega) (by omega)]
    rw [List.foldl_cons]
    have he2 : i + (k.length + v.length) + (rest.map (fun kv => kv.1 ++ kv.2)).flatten.length =
        i + (k.length + v.length + (rest.map (fun kv => kv.1 ++ kv.2)).flatten.length) := by
      omega
    rw [he2]

theorem negInt64_zero : negInt64 0 = 0 := by norm_num [negInt64, toInt64]

theorem toInt64_zero : toInt64 0 = 0 := by norm_num [toInt64]

theorem decodeItem_wf {bs : Bytes} (hwf : WFTerm bs) : ∃ it, decodesTo bs it := by
  induction hwf with
  | atom name h1 h2 h3 =>
    obtain ⟨a, ha⟩ := processAtom_isSome name (by intro h; rw [h] at h1; simp at h1)
    refine ⟨a, ?_⟩
    intro s i fuel hc hlt hf
    simp only [List.length_cons] at hlt hf ⊢
    obtain ⟨f, rfl⟩ : ∃ f, fuel = Nat.succ f := by
      cases fuel with
      | zero => omega
      | succ f => exact ⟨f, rfl⟩
    obtain ⟨hb1, hc⟩ := chunkAt_cons.mp hc
    obtain ⟨hb2, hc⟩ := chunkAt_cons.mp hc
    unfold decodeItem
    rw [readByte_chunk hb1]
    simp only [exceptMapError_ok, exceptBind_ok, Nat.reduceEqDiff, reduceIte]
    have hlen : ¬((⟨s, i + 1⟩ : Reader).lenR = 0) := by
      unfold Reader.lenR
      dsimp only
      omega
    rw [if_neg hlen, readByte_chunk hb2]
    simp only [exceptBind_ok]
    rw [readBytesN_chunk hc rfl]
    simp only [exceptMapError_ok, exceptBind_ok]
    rw [ha]
    have he : i + 1 + 1 + name.length = i + (name.length + 1 + 1) := by omega
    rw [he]
  | emptyList =>
    refine ⟨Item.list [], ?_⟩
    intro s i fuel hc hlt hf
    simp only [List.length_cons, List.length_nil] at hlt hf ⊢
    obtain ⟨f, rfl⟩ : ∃ f, fuel = Nat.succ f := by
      cases fuel with
      | zero => omega
      | succ f => exact ⟨f, rfl⟩
    obtain ⟨hb1, -⟩ := chunkAt_cons.mp hc
    unfold decodeItem
    rw [readByte_chunk hb1]
    simp only [exceptMapError_ok, exceptBind_ok, Nat.reduceEqDiff, reduceIte]
  | list children hn hWFc ih =>
    obtain ⟨its, hits⟩ := decodeItems_wf children hWFc ih
    refine ⟨Item.list its, ?_⟩
    intro s i fuel hc hlt hf
    have hlbs : (108 :: be4 children.length ++ children.flatten).length =
        5 + children.flatten.length := by
      simp [be4]
      omega
    rw [hlbs] at hlt hf ⊢
    obtain ⟨f, rfl⟩ : ∃ f, fuel = Nat.succ f := by
      cases fuel with
      | zero => omega
      | succ f => exact ⟨f, rfl⟩
    obtain ⟨hb1, hc⟩ := chunkAt_cons.mp hc
    obtain ⟨hc4, hcf⟩ := chunkAt_append.mp hc
    rw [be4_length] at hcf
    unfold decodeItem
    rw [readByte_chunk hb1]
    simp only [exceptMapError_ok, exceptBind_ok, Nat.reduceEqDiff, reduceIte]
    rw [readFull_chunk 4 hc4 (be4_length _) (by omega)]
    simp only [exceptMapError_ok, exceptBind_ok]
    rw [be32_be4 _ hn]
    rw [hits s (i + 1 + 4) f hcf (by omega) (by omega)]
    simp only [exceptBind_ok]
    have he : i + 1 + 4 + children.flatten.length = i + (5 + children.flatten.length) := by
      omega
    rw [he]
  | binary b hblen hbb =>
    refine ⟨Item.bytes b, ?_⟩
    intro s i fuel hc hlt hf
    have hlbs : (109 :: be4 b.length ++ b).length = 5 + b.length := by
      simp [be4]
      omega
    rw [hlbs] at hlt hf ⊢
    obtain ⟨f, rfl⟩ : ∃ f, fuel = Nat.succ f := by
      cases fuel with
      | zero => omega
      | succ f => exact ⟨f, rfl⟩
    obtain ⟨hb1, hc⟩ := chunkAt_cons.mp hc
    obtain ⟨hc4, hcb⟩ := chunkAt_append.mp hc
    rw [be4_length] at hcb
    unfold decodeItem
    rw [readByte_chunk hb1]
    simp only [exceptMapError_ok, exceptBind_ok, Nat.reduceEqDiff, reduceIte]
    rw [readFull_chunk 4 hc4 (be4_length _) (by omega)]
    simp only [exceptMapError_ok, exceptBind_ok]
    rw [be32_be4 _ hblen]
    rw [readFull_chunk b.length hcb rfl (by omega)]
    simp only [exceptMapError_ok, exceptBind_ok]
    have he : i + 1 + 4 + b.length = i + (5 + b.length) := by omega
    rw [he]
  | small n hn =>
    refine ⟨Item.uint8 n, ?_⟩
    intro s i fuel hc hlt hf
    simp only [List.length_cons, List.length_nil] at hlt hf ⊢
    obtain ⟨f, rfl⟩ : ∃ f, fuel = Nat.succ f := by
      cases fuel with
      | zero => omega
      | succ f => exact ⟨f, rfl⟩
    obtain ⟨hb1, hc⟩ := chunkAt_cons.mp hc
    obtain ⟨hb2, -⟩ := chunkAt_cons.mp hc
    unfold decodeItem
    rw [readByte_chunk hb1]
    simp only [exceptMapError_ok, exceptBind_ok, Nat.reduceEqDiff, reduceIte]
    rw [readByte_chunk hb2]
    simp only [exceptMapError_ok, exceptBind_ok]
  | int32 b hb4 hbb =>
    refine ⟨Item.int32 (toInt32 (be32 b)), ?_⟩
    intro s i fuel hc hlt hf
    simp only [List.length_cons, hb4] at hlt hf ⊢
    obtain ⟨f, rfl⟩ : ∃ f, fuel = Nat.succ f := by
      cases fuel with
      | zero => omega
      | succ f => exact ⟨f, rfl⟩
    obtain ⟨hb1, hc⟩ := chunkAt_cons.mp hc
    unfold decodeItem
    rw [readByte_chunk hb1]
    simp only [exceptMapError_ok, exceptBind_ok, Nat.reduceEqDiff, reduceIte]
    rw [readFull_chunk 4 hc hb4 (by omega)]
    simp only [exceptMapError_ok, exceptBind_ok]
  | int64 sign mag hsign hmlen hmb =>
    refine ⟨Item.int64 0, ?_⟩
    intro s i fuel hc hlt hf
    simp only [List.length_cons] at hlt hf ⊢
    obtain ⟨f, rfl⟩ : ∃ f, fuel = Nat.succ f := by
      cases fuel with
      | zero => omega
      | succ f => exact ⟨f, rfl⟩
    obtain ⟨hb1, hc⟩ := chunkAt_cons.mp hc
    obtain ⟨hb2, hc⟩ := chunkAt_cons.mp hc
    obtain ⟨hb3, hc⟩ := chunkAt_cons.mp hc
    unfold decodeItem
    rw [readByte_chunk hb1]
    simp only [exceptMapError_ok, exceptBind_ok, Nat.reduceEqDiff, reduceIte]
    rw [readByte_chunk hb2]
    simp only [exceptMapError_ok, exceptBind_ok]
    rw [readByte_chunk hb3]
    simp only [exceptMapError_ok, exceptBind_ok]
    rw [readIntLoop_chunk hc rfl (by norm_num)]
    simp only [exceptMapError_ok, exceptBind_ok]
    have he : i + 1 + 1 + 1 + mag.length = i + (mag.length + 1 + 1 + 1) := by omega
    by_cases hs1 : sign = 1
    · rw [if_pos hs1, negInt64_zero, he]
    · rw [if_neg hs1, toInt64_zero, he]
  | float b hb8 hbb =>
    refine ⟨Item.float (be64 b), ?_⟩
    intro s i fuel hc hlt hf
    simp only [List.length_cons, hb8] at hlt hf ⊢
    obtain ⟨f, rfl⟩ : ∃ f, fuel = Nat.succ f := by
      cases fuel with
      | zero => omega
      | succ f => exact ⟨f, rfl⟩
    obtain ⟨hb1, hc⟩ := chunkAt_cons.mp hc
    unfold decodeItem
    rw [readByte_chunk hb1]
    simp only [exceptMapError_ok, exceptBind_ok, Nat.reduceEqDiff, reduceIte]
    rw [readFull_chunk 8 hc hb8 (by omega)]
    simp only [exceptMapError_ok, exceptBind_ok]
  | mapT pairs hn hWFk hHash hWFv ihk ihv =>
    obtain ⟨kvs, hkvs⟩ := decodeMapPairs_wf pairs hWFk hWFv ihk ihv
    refine ⟨Item.map (kvs.foldl (fun m kv => assocSet m kv.1 kv.2) []), ?_⟩
    intro s i fuel hc hlt hf
    have hlbs : (116 :: be4 pairs.length ++ (pairs.map (fun kv => kv.1 ++ kv.2)).flatten).length =
        5 + (pairs.map (fun kv => kv.1 ++ kv.2)).flatten.length := by
      simp [be4]
      omega
    rw [hlbs] at hlt hf ⊢
    obtain ⟨f, rfl⟩ : ∃ f, fuel = Nat.succ f := by
      cases fuel with
      | zero => omega
      | succ f => exact ⟨f, rfl⟩
    obtain ⟨hb1, hc⟩ := chunkAt_cons.mp hc
    obtain ⟨hc4, hcj⟩ := chunkAt_append.mp hc
    rw [be4_length] at hcj
    unfold decodeItem
    rw [readByte_chunk hb1]
    simp only [exceptMapError_ok, exceptBind_ok, Nat.reduceEqDiff, reduceIte]
    rw [readFull_chunk 4 hc4 (be4_length _) (by omega)]
    simp only [exceptMapError_ok, exceptBind_ok]
    rw [be32_be4 _ hn]
    rw [hkvs s (i + 1 + 4) f [] hcj (by omega) (by omega)]
    simp only [exceptBind_ok]
    have he : i + 1 + 4 + (pairs.map (fun kv => kv.1 ++ kv.2)).flatten.length =
        i + (5 + (pairs.map (fun kv => kv.1 ++ kv.2)).flatten.length) := by omega
    rw [he]

theorem handleItemCasting_interface (it : Item) :
    handleItemCasting it GoType.tInterface = Except.ok (GoValue.vInterface it) := by
  cases it <;> rfl

theorem processItemD_interface (fuel : Nat) (r : Reader) :
    processItemD fuel GoType.tInterface r =
      (decodeItem fuel r).map (fun p => (GoValue.vInterface p.1, p.2)) := by
  cases fuel with
  | zero => rfl
  | succ f =>
    cases h : readByte r with
    | error e =>
      simp only [processItemD, decodeItem, h, exceptMapError_error, exceptBind_error]
      rfl
    | ok p =>
      obtain ⟨b, r₁⟩ := p
      simp only [processItemD, h, exceptMapError_ok, exceptBind_ok]
      show (decodeItem (Nat.succ f) r) >>= (fun p => (handleItemCasting p.1 GoType.tInterface) >>=
          fun v => Except.ok (v, p.2)) = _
      cases h2 : decodeItem (Nat.succ f) r with
      | error e => rfl
      | ok q =>
        obtain ⟨it, r₂⟩ := q
        rw [exceptBind_ok, handleItemCasting_interface, exceptBind_ok]
        rfl

/-- C10 (counterexample): `[109, 0, 0, 0, 0]` is one complete well-formed
term (a zero-length binary), yet `Unpack` fails on the exact input
`[131, 109, 0, 0, 0, 0]` while succeeding once a trailing byte follows, so
Unpack with trailing bytes does not agree with Unpack on the same input
without them. -/
theorem c10_trailing_bytes_counterexample :
    WFTerm [109, 0, 0, 0, 0] ∧
    isOkE (Unpack [131, 109, 0, 0, 0, 0] GoType.tInterface) = false ∧
    Unpack [131, 109, 0, 0, 0, 0, 0] GoType.tInterface =
      Except.ok (GoValue.vInterface (Item.bytes [])) := by
  refine ⟨?_, rfl, rfl⟩
  exact WFTerm.binary [] (by norm_num) (by simp)

/-- C10 (amended): for the version byte, one complete well-formed term and
any nonempty trailing byte sequence, `Unpack` into an `interface{}`
destination succeeds with a value determined by the term alone — the same
value for every choice of trailing bytes; the trailing bytes are never
materialized into the result.  Well-formed terms (`WFTerm`) exclude
zero-length atoms and maps with slice, map or float keys, on which the Go
program panics at `Data[0]` or at the map insert, or diverges from the
model's key comparison (see `hashableKeyChunk`). -/
theorem c10_trailing_bytes_ignored (bs : Bytes) (hwf : WFTerm bs) :
    ∃ v : GoValue, ∀ extra : Bytes, extra ≠ [] →
      Unpack (131 :: bs ++ extra) GoType.tInterface = Except.ok v := by
  obtain ⟨it, hit⟩ := decodeItem_wf hwf
  refine ⟨GoValue.vInterface it, ?_⟩
  intro extra hne
  have hbs1 : 1 ≤ bs.length := WFTerm_length_pos hwf
  have hex1 : 1 ≤ extra.length := List.length_pos.mpr hne
  have hdlen : (131 :: bs ++ extra).length = 1 + bs.length + extra.length := by
    simp
    omega
  unfold Unpack
  rw [if_neg (by rw [hdlen]; omega)]
  have hb0 : (131 :: bs ++ extra)[0]? = some 131 := by simp
  rw [readByte_chunk hb0]
  simp only [Nat.reduceEqDiff, reduceIte]
  rw [processItemD_interface]
  have hchunk : chunkAt (131 :: bs ++ extra) 1 bs := by
    unfold chunkAt
    show (bs ++ extra).take bs.length = bs
    exact List.take_left bs extra
  rw [hit (131 :: bs ++ extra) 1 (5 * (131 :: bs ++ extra).length + 5) hchunk
    (by rw [hdlen]; omega) (by rw [hdlen]; omega)]
  rfl

/-- Witness for `c10_trailing_bytes_ignored` at the small-integer term
`[97, 5]`. -/
theorem c10_trailing_bytes_ignored_witness :
    WFTerm [97, 5] ∧
    (∃ v : GoValue, ∀ extra : Bytes, extra ≠ [] →
      Unpack (131 :: [97, 5] ++ extra) GoType.tInterface = Except.ok v) ∧
    Unpack [131, 97, 5, 9] GoType.tInterface =
      Except.ok (GoValue.vInterface (Item.uint8 5)) :=
  ⟨WFTerm.small 5 (by norm_num),
    c10_trailing_bytes_ignored [97, 5] (WFTerm.small 5 (by norm_num)), rfl⟩
